import Mathlib

/-!
Verification development for the 4D testing extension.

The TypeScript sources are embedded shallowly over `List Char`:

* `src/parser.ts` — the lexical scanner (`parseMarkdown`) and the
  line-continuation mapper (`mapFunctionLineToSourceLine`);
* `src/startTestRun.ts` — the run orchestrator and the result reconciler
  (the file holds two revisions of `startTestRun` and `handleResults`;
  both are embedded, in namespaces `V1` and `V2`);
* the older scanner revision (with assertion events) and the entity tree
  builder (`updateFromDisk`), from the remaining repository sources.

JavaScript strings are modelled as `List Char`; `String.split`, `trim`,
`trimEnd` and `endsWith` are reimplemented below on `List Char` so that
every definition is executable and provable.  Regular expressions are
embedded by their matching semantics on the inputs the code feeds them
(documented at each definition).
-/

namespace FourD

/-! ### JavaScript string primitives on `List Char` -/

/-- Split a character list at every occurrence of the separator, as
JavaScript `String.prototype.split` with a single-character separator:
the result is never empty and no piece contains the separator. -/
def splitOnSep (sep : Char) : List Char → List (List Char)
  | [] => [[]]
  | c :: cs =>
    let r := splitOnSep sep cs
    if c = sep then [] :: r
    else
      match r with
      | [] => [[c]]
      | piece :: rest => (c :: piece) :: rest

/-- JavaScript whitespace test, restricted to the ASCII whitespace that
appears in 4D sources (space, tab, carriage return, line feed). -/
def isWS (c : Char) : Bool := c.isWhitespace

/-- JavaScript `String.prototype.trimEnd`. -/
def trimEndWS (l : List Char) : List Char :=
  (l.reverse.dropWhile isWS).reverse

/-- JavaScript `String.prototype.trim`. -/
def trimWS (l : List Char) : List Char :=
  trimEndWS (l.dropWhile isWS)

/-- Consume the literal pattern from the front of a list, returning the
remainder on success. -/
def dropLead : List Char → List Char → Option (List Char)
  | [], rest => some rest
  | _ :: _, [] => none
  | p :: ps, c :: cs => if p = c then dropLead ps cs else none

/-- Does the list start with the given literal pattern? -/
def isLead (pat l : List Char) : Bool := (dropLead pat l).isSome

/-- Index of the first occurrence of a character
(JavaScript `String.prototype.indexOf`). -/
def idxOfFirst (c : Char) : List Char → Option Nat
  | [] => none
  | x :: xs =>
    if x = c then some 0
    else (idxOfFirst c xs).map (· + 1)

/-- Index of the last occurrence of a character
(JavaScript `String.prototype.lastIndexOf`). -/
def idxOfLast (c : Char) (l : List Char) : Option Nat :=
  (idxOfFirst c l.reverse).map (fun i => l.length - 1 - i)

/-- JavaScript `Array.prototype.join`. -/
def joinWith (sep : String) : List String → String
  | [] => ""
  | [a] => a
  | a :: b :: rest => a ++ sep ++ joinWith sep (b :: rest)

/-! ### Line-continuation mapper (`mapFunctionLineToSourceLine`, parser.ts)

The source reads the file, splits it on newlines, extracts the trailing
identifier of the possibly dot-qualified function name, finds the first
line whose trimmed text matches `^Function\s+<name>\s*\(`, and then walks
the following physical lines counting logical-line boundaries: a physical
line is a boundary iff its text, after trailing whitespace is removed,
does not end in a backslash. -/

/-- `functionName.split(".").pop() || functionName`. -/
def methodNameOf (functionName : String) : String :=
  let parts := splitOnSep '.' functionName.data
  let last := (parts.getLast?).getD []
  if last.isEmpty then functionName else String.mk last

/-- The regex `^Function\s+<escaped name>\s*\(` applied to the trimmed
line (`lines[i].trim().match(...)`).  The name is matched literally (the
source escapes every regex metacharacter in it); the greedy `\s+` is
embedded with its backtracking over the count of consumed whitespace
characters. -/
def matchFunctionDecl (methodName : String) (line : List Char) : Bool :=
  match dropLead ("Function".data) (trimWS line) with
  | none => false
  | some r1 =>
    let m := (r1.takeWhile isWS).length
    (List.range m).any (fun i =>
      match dropLead methodName.data (r1.drop (i + 1)) with
      | some r2 =>
        match r2.dropWhile isWS with
        | c :: _ => c = '('
        | [] => false
      | none => false)

/-- Physical index of the located function declaration line: the first
line whose trimmed text matches the declaration pattern. -/
def functionDeclLine (content functionName : String) : Option Nat :=
  List.findIdx? (fun l => matchFunctionDecl (methodNameOf functionName) l)
    (splitOnSep '\n' content.data)

/-- `currentLine.trimEnd().endsWith("\\")`. -/
def hasContinuation (l : List Char) : Bool :=
  (trimEndWS l).getLast? = some '\\'

/-- The while loop of `mapFunctionLineToSourceLine`: walk the remaining
physical lines; each line that does not carry a continuation marker
completes a logical line, and the walk stops at the physical index where
the `lineOffset`-th logical line completes. -/
def walkLogicalLines :
    List (List Char) → Nat → Nat → Nat → Option Nat
  | [], _, _, _ => none
  | currentLine :: rest, logicalLinesCompleted, lineIndex, lineOffset =>
    if hasContinuation currentLine then
      walkLogicalLines rest logicalLinesCompleted (lineIndex + 1) lineOffset
    else
      let completed := logicalLinesCompleted + 1
      if completed = lineOffset then some lineIndex
      else walkLogicalLines rest completed (lineIndex + 1) lineOffset

/-- `mapFunctionLineToSourceLine` of parser.ts, with the file contents
passed directly (the source obtains them from the file system). -/
def mapFunctionLineToSourceLine
    (content functionName : String) (lineOffset : Nat) : Option Nat :=
  let lines := splitOnSep '\n' content.data
  match functionDeclLine content functionName with
  | none => none
  | some functionStartLine =>
    walkLogicalLines (lines.drop (functionStartLine + 1)) 0
      (functionStartLine + 1) lineOffset

/-- Specification-side reading of the walk: the list of physical indices
of the logical-line boundaries, starting the numbering at `idx`. -/
def boundaryIdxs : List (List Char) → Nat → List Nat
  | [], _ => []
  | l :: ls, idx =>
    if hasContinuation l then boundaryIdxs ls (idx + 1)
    else idx :: boundaryIdxs ls (idx + 1)

/-! ### Scanner (`parseMarkdown`, parser.ts)

The scanner iterates over the physical lines.  For each line it forms
`combined = (lastline ? lastline + "\n" : "") + line` and runs

  `headingRe = /^.*?(?:\/\/ #tags: (.*))?\nFunction (test_.*)\(.*$/`

against it.  Since `lastline` and `line` are single physical lines
(no newline inside), the regex matches exactly when `lastline` is
non-empty, `line` starts with `Function test_` and `line` holds an
opening parenthesis; group 1 is the text after the first occurrence of
the marker `// #tags: ` in `lastline` (undefined when the marker is
absent), and group 2 runs from column 9 to the last opening parenthesis
of `line`.  Those semantics are embedded below. -/

structure SourcePos where
  line : Nat
  character : Nat
deriving DecidableEq, Repr

structure SourceRange where
  start : SourcePos
  stop : SourcePos
deriving DecidableEq, Repr

structure HeadingEvent where
  range : SourceRange
  name : String
  depth : Nat
  tags : List String
deriving DecidableEq, Repr

/-- Does the physical line carry a recognizable declaration, i.e. does
the part of the heading regex after the newline (`Function (test_.*)\(`)
match it?  The line must start with `Function test_` (column 0, single
space) and contain an opening parenthesis. -/
def declLine (cur : List Char) : Bool :=
  isLead ("Function test_".data) cur && cur.contains '('

/-- Group 2 of the heading regex: from column 9 (after `Function `) up
to the last opening parenthesis (the inner `.*` is greedy). -/
def headingNameOf (cur : List Char) : List Char :=
  match idxOfLast '(' cur with
  | some j => (cur.drop 9).take (j - 9)
  | none => []

/-- The tag-comment marker. -/
def tagsMarker : List Char := ("// #tags: ").data

/-- Group 1 of the heading regex of parser.ts: the lazy leading `.*?`
stops at the first occurrence of the marker, so the captured payload is
the text after the first `// #tags: ` of the previous line; `none` when
the marker does not occur. -/
def tagsGroup : List Char → Option (List Char)
  | [] => none
  | l@(_ :: tl) =>
    match dropLead tagsMarker l with
    | some rest => some rest
    | none => tagsGroup tl

/-- `tagsString = tagsString ? tagsString : "unit"` — an undefined or
empty group 1 is replaced by the default payload. -/
def mkTagsDefault (g : Option (List Char)) : String :=
  match g with
  | none => "unit"
  | some s => if s.isEmpty then "unit" else String.mk s

/-- `tagsString.split(",").map(t => t.trim())`. -/
def headingTagsOf (tagsString : String) : List String :=
  (splitOnSep ',' tagsString.data).map (fun t => String.mk (trimWS t))

/-- `tagsString.split(":").length`. -/
def headingDepthOf (tagsString : String) : Nat :=
  (splitOnSep ':' tagsString.data).length

/-- `headingRe.exec(combined)`, returning `(group1?, group2)`:
the regex needs exactly one newline in `combined`; the part before it is
consumed by `^.*?(?:\/\/ #tags: (.*))?` (which always succeeds on a
newline-free string) and the part after it must match
`Function (test_.*)\(.*$`. -/
def headingExec (combined : List Char) :
    Option (Option (List Char) × List Char) :=
  match splitOnSep '\n' combined with
  | [prev, cur] =>
    if declLine cur then some (tagsGroup prev, headingNameOf cur) else none
  | _ => none

/-- The heading event built at line `lineNo` for declaration line `line`
whose previous physical line is `prevLine`. -/
def mkHeadingEvent (lineNo : Nat) (line prevLine : List Char) : HeadingEvent :=
  let tagsString := mkTagsDefault (tagsGroup prevLine)
  { range := ⟨⟨lineNo, 0⟩, ⟨lineNo, line.length⟩⟩
    name := String.mk (headingNameOf line)
    depth := headingDepthOf tagsString
    tags := headingTagsOf tagsString }

/-- The scanner loop of parser.ts: `lastline` starts empty, is updated
on every iteration, and the heading regex runs on the combined window. -/
def parseLinesV1 : List (List Char) → List Char → Nat → List HeadingEvent × Bool
  | [], _, _ => ([], false)
  | line :: rest, lastline, lineNo =>
    let combined := (if lastline.isEmpty then [] else lastline ++ ['\n']) ++ line
    let res := parseLinesV1 rest line (lineNo + 1)
    match headingExec combined with
    | some (g, nm) =>
      let tagsString := mkTagsDefault g
      (⟨⟨⟨lineNo, 0⟩, ⟨lineNo, line.length⟩⟩, String.mk nm,
        headingDepthOf tagsString, headingTagsOf tagsString⟩ :: res.1, true)
    | none => res

/-- `parseMarkdown` of parser.ts: the emitted heading events in file
order, together with the returned `foundFunction` boolean. -/
def parseMarkdown (text : String) : List HeadingEvent × Bool :=
  parseLinesV1 (splitOnSep '\n' text.data) [] 0

/-! Specification-side readings used to state the scanner claims. -/

/-- Indices (from `n`) of the list elements satisfying the predicate. -/
def idxsWhere (p : α → Bool) : List α → Nat → List Nat
  | [], _ => []
  | a :: as, n =>
    if p a then n :: idxsWhere p as (n + 1) else idxsWhere p as (n + 1)

/-- Pair every line with its predecessor; the first line is paired with
the empty predecessor. -/
def linePairs (lines : List (List Char)) : List (List Char × List Char) :=
  lines.zip ([] :: lines)

/-- A line (paired with its predecessor) that the claim counts as a
declaration: the claim counts every syntactically valid declaration. -/
def claimedDecl (p : List Char × List Char) : Bool := declLine p.1

/-- A line (paired with its predecessor) that the scanner actually
reports: the declaration must additionally be preceded by a non-empty
physical line. -/
def scannedDecl (p : List Char × List Char) : Bool :=
  declLine p.1 && !p.2.isEmpty

/-- The events the scanner emits, computed structurally alongside the
predecessor of each line (reference form used in proofs). -/
def qualEvents : List (List Char) → List Char → Nat → List HeadingEvent
  | [], _, _ => []
  | line :: rest, prevLine, n =>
    if !prevLine.isEmpty && declLine line then
      mkHeadingEvent n line prevLine :: qualEvents rest line (n + 1)
    else qualEvents rest line (n + 1)

/-! ### Run orchestrator: invocation arguments
(startTestRun.ts, second revision, lines 247-262)

The orchestrator deduplicates `suite.func` pairs through a JavaScript
Set (insertion order, first occurrences), extracts an optional tag from
the run-profile label with the regex `/Run '(.+)' tests/`, and builds
the `make` argument list: `test format=json` plus `tag=<tag>` when the
label matched, else `test=<pairs>` unless the request runs all tests. -/

/-- An apostrophe character (U+0027). -/
def squote : Char := Char.ofNat 39

structure Target where
  suite : String
  func : String
  itemId : String
  uri : Option String
deriving DecidableEq, Repr

/-- `Array.from(new Set(xs))`: deduplication keeping first occurrences. -/
def dedupFirst : List String → List String
  | [] => []
  | a :: rest => a :: (dedupFirst rest).filter (fun b => b != a)

/-- `Array.from(new Set(testTargets.map(t => suite + "." + func)))`. -/
def uniqueTargets (testTargets : List Target) : List String :=
  dedupFirst (testTargets.map (fun t => t.suite ++ "." ++ t.func))

/-- Opening literal of the profile-label regex: `Run` space apostrophe. -/
def runTagOpen : List Char := ("Run ").data ++ [squote]

/-- Closing literal of the profile-label regex: apostrophe ` tests`. -/
def runTagClose : List Char := squote :: (" tests").data

/-- Greedy `(.+)` followed by the closing literal: the largest positive
capture length, not crossing a newline, whose remainder starts with the
closing literal. -/
def greedyCapture (t : List Char) : Option (List Char) :=
  (List.range (t.takeWhile (fun c => !(c = '\n'))).length).reverse.findSome?
    (fun i =>
      if isLead runTagClose (t.drop (i + 1)) then some (t.take (i + 1))
      else none)

/-- `label.match(/Run '(.+)' tests/)`: scan start positions left to
right; at the first position opening with the literal and admitting a
greedily captured group closed by the closing literal, return the
capture. -/
def runTagSearch : List Char → Option (List Char)
  | [] => none
  | l@(_ :: tl) =>
    match (if isLead runTagOpen l then greedyCapture (l.drop runTagOpen.length)
      else none) with
    | some cap => some cap
    | none => runTagSearch tl

/-- `(request.profile?.label?.match(/Run '(.+)' tests/) || [])[1]` —
the capture is at least one character, so it is always truthy. -/
def extractTag (profileLabel : Option String) : Option String :=
  match profileLabel with
  | none => none
  | some l => (runTagSearch l.data).map String.mk

/-- Lines 253-262 of the second `startTestRun` revision: the argument
list passed to the external runner. -/
def buildCmdArgs (profileLabel : Option String) (isRunningAllTests : Bool)
    (testTargets : List Target) : List String :=
  let base := ["test", "format=json"]
  match extractTag profileLabel with
  | some t => base ++ ["tag=" ++ t]
  | none =>
    if !isRunningAllTests then
      base ++ ["test=" ++ joinWith "," (uniqueTargets testTargets)]
    else base

/-- An argument that requests a tag filter. -/
def isTagArg (s : String) : Bool := isLead ("tag=").data s.data

/-- An argument that passes an explicit function list. -/
def isTestListArg (s : String) : Bool := isLead ("test=").data s.data

/-! ### Older scanner revision (part_002): assertion events

The older `parseMarkdown` first runs each physical line against

  `testRe = /^.*\.assert\.(.*)\(.+?;(.+?);(.*?);* "(.+)"\)$/`

emitting an assertion event on a match, and otherwise runs the two-line
window against

  `headingRe = /^.*\/\/ #tags: (.*)\nFunction (test_.*)\(.*$/`

(this revision requires the tag comment: the greedy leading `.*` claims
the last marker occurrence, and an empty payload yields an empty tag
list, with no default). -/

structure AssertionEvent where
  range : SourceRange
  actual : String
  operator : String
  expected : String
  should : String
deriving DecidableEq, Repr

inductive ParseEvent where
  | heading (h : HeadingEvent)
  | test (a : AssertionEvent)
deriving DecidableEq, Repr

/-- The physical line an event starts at. -/
def eventLine : ParseEvent → Nat
  | ParseEvent.heading h => h.range.start.line
  | ParseEvent.test a => a.range.start.line

/-- Indices of characters satisfying a predicate. -/
def charIdxs (p : Char → Bool) (l : List Char) : List Nat := idxsWhere p l 0

/-- Start indices of the occurrences of a literal pattern. -/
def occIdxs (pat : List Char) (l : List Char) : List Nat :=
  (List.range (l.length + 1)).filter (fun i => isLead pat (l.drop i))

/-- The tail pattern ` "(.+)"\)$` of the assertion regex: a space, a
quote, a greedy capture of at least one character, then a quote and a
closing parenthesis at end of line.  The end anchor forces the capture
to reach exactly the quote before the final two characters. -/
def tailQuoted (t : List Char) : Option (List Char) :=
  match t with
  | ' ' :: '"' :: rest =>
    if 3 ≤ rest.length ∧ rest.getD (rest.length - 2) ' ' = '"' ∧
        rest.getLast? = some ')' then
      some (rest.take (rest.length - 2))
    else none
  | _ => none

/-- The pattern `(.*?);* "(.+)"\)$`: the lazy group 3 grows from the
empty capture, and for each candidate the greedy `;*` shrinks from the
longest semicolon run.  Returns (group 3, group 4). -/
def execArgsTail (rest3 : List Char) : Option (List Char × List Char) :=
  (List.range (rest3.length + 1)).findSome? (fun k =>
    let g3 := rest3.take k
    let after3 := rest3.drop k
    let semiMax := (after3.takeWhile (fun c => c = ';')).length
    ((List.range (semiMax + 1)).reverse.findSome? (fun j =>
      (tailQuoted (after3.drop j)).map (fun g4 => (g3, g4)))))

/-- The assertion regex run on one physical line (which holds no
newline, as every scanned line comes from the newline split).  The
JavaScript backtracking order is embedded directly: the leading greedy
`.*` scans `.assert.` occurrences from the right, the greedy `(.*)`
scans opening parentheses from the right, the lazy `.+?`/`(.+?)` scan
separator semicolons from the left.  Returns
(operator, actual, expected, shouldMessage) — groups 1 to 4. -/
def execTest (line : List Char) :
    Option (List Char × List Char × List Char × List Char) :=
  ((occIdxs (".assert.").data line).reverse.findSome? (fun aPos =>
    let afterA := line.drop (aPos + 8)
    ((charIdxs (fun c => c = '(') afterA).reverse.findSome? (fun pPos =>
      let op := afterA.take pPos
      let rest := afterA.drop (pPos + 1)
      ((charIdxs (fun c => c = ';') rest).findSome? (fun s1 =>
        if 1 ≤ s1 then
          let rest2 := rest.drop (s1 + 1)
          ((charIdxs (fun c => c = ';') rest2).findSome? (fun s2 =>
            if 1 ≤ s2 then
              let actual := rest2.take s2
              (execArgsTail (rest2.drop (s2 + 1))).map
                (fun p => (op, actual, p.1, p.2))
            else none))
        else none))))))

/-- Group 1 of the older heading regex: the greedy leading `.*` claims
the last occurrence of `// #tags: `, so the captured payload is the
text after the last marker; no match without the marker. -/
def tagsGroupLast : List Char → Option (List Char)
  | [] => none
  | l@(_ :: tl) =>
    match tagsGroupLast tl with
    | some rest => some rest
    | none =>
      match dropLead tagsMarker l with
      | some rest => some rest
      | none => none

/-- `headingRe.exec(combined)` for the older revision: one newline, a
declaration line after it, and a mandatory tag marker before it. -/
def headingExecV2 (combined : List Char) :
    Option (List Char × List Char) :=
  match splitOnSep '\n' combined with
  | [prev, cur] =>
    if declLine cur then
      (tagsGroupLast prev).map (fun g => (g, headingNameOf cur))
    else none
  | _ => none

/-- The heading event of the older revision: an empty captured payload
is falsy, yielding depth 1 and an empty tag list (no default here). -/
def mkHeadingEventV2 (lineNo lineLen : Nat) (g nm : List Char) :
    HeadingEvent :=
  { range := ⟨⟨lineNo, 0⟩, ⟨lineNo, lineLen⟩⟩
    name := String.mk nm
    depth := if g.isEmpty then 1 else (splitOnSep ':' g).length
    tags := if g.isEmpty then []
      else (splitOnSep ',' g).map (fun t => String.mk (trimWS t)) }

/-- The older scanner loop: each line is first tried against the
assertion regex (emitting a test event and skipping the heading check),
then the two-line window is tried against the heading regex. -/
def parseLinesV2 :
    List (List Char) → List Char → Nat → List ParseEvent × Bool
  | [], _, _ => ([], false)
  | line :: rest, lastline, lineNo =>
    match execTest line with
    | some (op, act, exp, shd) =>
      let res := parseLinesV2 rest line (lineNo + 1)
      (ParseEvent.test ⟨⟨⟨lineNo, 0⟩, ⟨lineNo, line.length⟩⟩,
        String.mk act, String.mk op, String.mk exp, String.mk shd⟩ :: res.1,
        res.2)
    | none =>
      let combined :=
        (if lastline.isEmpty then [] else lastline ++ ['\n']) ++ line
      let res := parseLinesV2 rest line (lineNo + 1)
      match headingExecV2 combined with
      | some (g, nm) =>
        (ParseEvent.heading (mkHeadingEventV2 lineNo line.length g nm)
          :: res.1, true)
      | none => res

/-- The older `parseMarkdown`. -/
def parseMarkdownV2 (text : String) : List ParseEvent × Bool :=
  parseLinesV2 (splitOnSep '\n' text.data) [] 0

/-! ### Entity tree builder (`updateFromDisk`, testTree) -/

/-- The assertion entity data (`TestCase`) created by the builder, with
the id handed to `createTestItem`. -/
structure TestCaseRec where
  itemId : String
  label : String
  range : SourceRange
  actual : String
  operator : String
  expected : String
  should : String
deriving DecidableEq, Repr

/-- The `TestCase` record of one assertion event, with the id handed to
`createTestItem`: the file uri joined with the label, which is the
should message (`${fileItem.uri}/${data.getLabel()}`). -/
def mkCaseRec (uri : String) (a : AssertionEvent) : TestCaseRec :=
  { itemId := uri ++ "/" ++ a.should
    label := a.should
    range := a.range
    actual := a.actual
    operator := a.operator
    expected := a.expected
    should := a.should }

/-- The creation-order reading of the `updateFromDisk` event fold: the
assertion records handed to `createTestItem`, one per assertion event
arriving while the top-of-stack label is a test function.  (Installation
into the id-keyed children collections is modelled separately by
`buildFold` below; this list is what the builder creates, before the
id-keyed replacement collapses equal ids within one parent.) -/
def collectRecs (uri : String) :
    List ParseEvent → List String → List TestCaseRec
  | [], _ => []
  | ParseEvent.heading h :: rest, stack =>
    let stackA :=
      if stack.length > h.depth then stack.drop (stack.length - h.depth)
      else stack
    collectRecs uri rest (h.name :: stackA)
  | ParseEvent.test a :: rest, stack =>
    let keep := match stack.head? with
      | some lbl => isLead ("test_").data lbl.data
      | none => false
    (if keep then [mkCaseRec uri a] else []) ++ collectRecs uri rest stack

/-- All assertion records created by one scan-and-build pass. -/
def assertionRecords (fileLabel uri text : String) : List TestCaseRec :=
  collectRecs uri (parseMarkdownV2 text).1 [fileLabel]

/-! The installed tree.  `updateFromDisk` accumulates each open entity's
children in a plain array, but installs them with
`finished.item.children.replace(finished.children)`, and a
`TestItemCollection` is keyed by item id (a JavaScript Map): pushing two
children with the same id leaves one entry.  Assertion item ids carry
only the file uri and the should message, so equal-message assertions
under one heading share an id. -/

/-- A child pushed into an entity's children array: a heading item
(id `uri/name`) or an assertion item (id `uri/shouldMessage`). -/
inductive ChildItem where
  | headingItem (itemId : String) (name : String) (range : SourceRange)
  | caseItem (itemId : String) (testCase : TestCaseRec)
deriving DecidableEq, Repr

/-- The id a child is keyed under. -/
def childId : ChildItem → String
  | ChildItem.headingItem itemId _ _ => itemId
  | ChildItem.caseItem itemId _ => itemId

/-- The value stored under an id after all Map set calls: the last
pushed child with that id. -/
def lastWithId (items : List ChildItem) (id : String) : Option ChildItem :=
  items.reverse.find? (fun c => childId c == id)

/-- The distinct child ids, in order of first occurrence. -/
def firstIds : List ChildItem → List String
  | [] => []
  | c :: rest => childId c :: (firstIds rest).filter (fun i => i != childId c)

/-- `TestItemCollection.replace(items)`: the collection is keyed by item
id, so the installed children hold one entry per distinct id, at the
position of its first occurrence, with the value of its last
occurrence. -/
def replaceById (items : List ChildItem) : List ChildItem :=
  (firstIds items).filterMap (lastWithId items)

/-- One open entity of the builder: its label and the children pushed so
far, in push order. -/
structure Frame where
  label : String
  children : List ChildItem
deriving DecidableEq, Repr

/-- `finished.item.children.replace(finished.children)`. -/
def finalizeFrame (f : Frame) : String × List ChildItem :=
  (f.label, replaceById f.children)

/-- The `ascend` loop: pop and finalize open entities while the stack is
taller than the target depth. -/
def ascendFrames (depth : Nat) :
    List Frame → List Frame × List (String × List ChildItem)
  | [] => ([], [])
  | f :: rest =>
    if rest.length + 1 > depth then
      let r := ascendFrames depth rest
      (r.1, finalizeFrame f :: r.2)
    else (f :: rest, [])

/-- The full `updateFromDisk` event fold with id-keyed installation.  On
a heading event: ascend to the heading depth, push the heading item into
the parent frame, open a frame for the heading.  On an assertion event:
push a case item into the open frame when its label is a test function
(ignored otherwise).  At end of stream: ascend to the bottom.  Returns
the finalized (label, installed children) pairs in finalization
order. -/
def buildFold (uri : String) :
    List ParseEvent → List Frame → List (String × List ChildItem)
  | [], stack => (ascendFrames 0 stack).2
  | ParseEvent.heading h :: rest, stack =>
    let asc := ascendFrames h.depth stack
    let stackB := match asc.1 with
      | [] => []
      | parent :: ps =>
        { parent with children := parent.children ++
            [ChildItem.headingItem (uri ++ "/" ++ h.name) h.name h.range] }
          :: ps
    asc.2 ++ buildFold uri rest (Frame.mk h.name [] :: stackB)
  | ParseEvent.test a :: rest, stack =>
    let keep := match stack.head? with
      | some f => isLead ("test_").data f.label.data
      | none => false
    let stackB :=
      if keep then
        match stack with
        | f :: ps =>
          { f with children := f.children ++
              [ChildItem.caseItem (uri ++ "/" ++ a.should) (mkCaseRec uri a)] }
            :: ps
        | [] => []
      else stack
    buildFold uri rest stackB

/-- All finalized entities of one scan-and-build pass: each label with
the children actually installed in its id-keyed collection. -/
def installedChildren (fileLabel uri text : String) :
    List (String × List ChildItem) :=
  buildFold uri (parseMarkdownV2 text).1 [Frame.mk fileLabel []]

/-- A well-formed assertion child: keyed by the file uri joined with its
should message. -/
def goodCase (uri : String) : ChildItem → Prop
  | ChildItem.caseItem itemId testCase =>
    itemId = uri ++ "/" ++ testCase.should
  | ChildItem.headingItem _ _ _ => True

/-- Every child of the frame is a well-formed assertion child or a
heading item. -/
def frameGood (uri : String) (f : Frame) : Prop :=
  ∀ c ∈ f.children, goodCase uri c

/-! ### Result payload and reconciliation (startTestRun.ts)

The payload parsed from the runner output.  Dynamic JSON values are
modelled with explicit presence: optional fields are `Option`s, and the
`expected`/`actual` values are kept in their JSON-stringified text form,
so that `JSON.stringify` is the identity in this model. -/

structure AssertionResult where
  message : Option String
  expected : String
  actual : String
  passed : Bool
  line : Option Nat
  functionName : Option String
  duration : Option Nat
deriving DecidableEq, Repr

structure TestResultEntry where
  suite : String
  name : String
  passed : Bool
  duration : Option Nat
  assertionCount : Nat
  assertions : Option (List AssertionResult)
deriving DecidableEq, Repr

structure FailureEntry where
  suite : String
  test : String
  reason : Option String
deriving DecidableEq, Repr

structure Payload where
  testResults : Option (List TestResultEntry)
  failures : Option (List FailureEntry)
deriving DecidableEq, Repr

/-- Observable effects of the close handler: run diagnostics
(`run.appendOutput`), item creation with label and optional mapped
source line, run-status callbacks, and the child replacement on the
heading item. -/
inductive Update where
  | diag (msg : String)
  | createItem (itemId : String) (label : String) (sourceLine : Option Nat)
  | started (itemId : String)
  | passed (itemId : String) (duration : Option Nat)
  | failed (itemId : String) (msg : String) (duration : Option Nat)
  | replaceChildren (itemId : String) (childIds : List String)
deriving DecidableEq, Repr

/-- `testTargets.find(t => t.suite === r.suite && t.func === r.name)`. -/
def findTarget (testTargets : List Target) (tr : TestResultEntry) :
    Option Target :=
  testTargets.find? (fun t => t.suite == tr.suite && t.func == tr.name)

/-- An update that marks an entity passed or failed. -/
def isStatusUpdate : Update → Bool
  | Update.passed _ _ => true
  | Update.failed _ _ _ => true
  | _ => false

/-! Reconciler of the first `startTestRun` revision
(startTestRun.ts lines 129-192). -/

namespace V1

/-- Lines 158-166: the `Failed: <reason>` line, present when the payload
holds a failures entry matching the suite and test with a truthy reason. -/
def reasonLines (failures : Option (List FailureEntry))
    (tr : TestResultEntry) : List String :=
  match failures with
  | none => []
  | some fl =>
    match fl.find? (fun f => f.suite == tr.suite && f.test == tr.name) with
    | some f =>
      match f.reason with
      | some r => if r.isEmpty then [] else ["Failed: " ++ r ++ "\n"]
      | none => []
    | none => []

/-- Lines 172-179: the detail lines pushed for one failed assertion. -/
def assertionDetail (index : Nat) (a : AssertionResult) : List String :=
  ("\n[" ++ toString (index + 1) ++ "] " ++
    (match a.message with
      | some m => if m.isEmpty then "(no message)" else m
      | none => "(no message)")) ::
  ("  Expected: " ++ a.expected) ::
  ("  Actual: " ++ a.actual) ::
  (match a.line with
    | some n => if n = 0 then [] else ["  Line: " ++ toString n]
    | none => [])

/-- Lines 170-180: the failed-assertions block, present only when at
least one assertion failed. -/
def detailLines (failedAssertions : List AssertionResult) : List String :=
  if failedAssertions.length > 0 then
    ("\nFailed assertions (" ++ toString failedAssertions.length ++ "):\n") ::
      (failedAssertions.enum.map
        (fun p => assertionDetail p.1 p.2)).flatten
  else []

/-- Lines 183-187: the summary line. -/
def summaryLine (tr : TestResultEntry) (as : List AssertionResult) : String :=
  "\n\nSummary: " ++ toString tr.assertionCount ++ " assertions (" ++
    toString ((as.filter (fun a => a.passed)).length) ++ " passed, " ++
    toString ((as.filter (fun a => !a.passed)).length) ++ " failed)"

/-- One `testResults` entry of the first-revision `handleResults`: the
emitted updates, and whether the JavaScript throws (it reads
`assertions.filter` without a guard, so an absent assertions field on a
failed entry raises a TypeError). -/
def processEntry (failures : Option (List FailureEntry))
    (testTargets : List Target) (tr : TestResultEntry) :
    List Update × Bool :=
  match findTarget testTargets tr with
  | none =>
    ([Update.diag ("Warning: Could not find TestItem for " ++ tr.suite
      ++ "." ++ tr.name ++ "\n")], false)
  | some target =>
    if tr.passed then
      ([Update.passed target.itemId (some (tr.duration.getD 0))], false)
    else
      let rl := reasonLines failures tr
      match tr.assertions with
      | none => ([], true)
      | some as =>
        let failedAs := as.filter (fun a => !a.passed)
        ([Update.failed target.itemId
          (joinWith "\n" (rl ++ detailLines failedAs ++ [summaryLine tr as]))
          (some (tr.duration.getD 0))], false)

/-- The entry loop, stopping on a thrown entry. -/
def runEntries (failures : Option (List FailureEntry))
    (testTargets : List Target) : List TestResultEntry → List Update × Bool
  | [] => ([], false)
  | tr :: rest =>
    let r := processEntry failures testTargets tr
    if r.2 then (r.1, true)
    else
      let rr := runEntries failures testTargets rest
      (r.1 ++ rr.1, rr.2)

/-- `handleResults` (first revision). -/
def handleResults (testTargets : List Target) (results : Payload) :
    List Update × Bool :=
  match results.testResults with
  | none => ([], false)
  | some entries => runEntries results.failures testTargets entries

end V1

/-! Reconciler of the second `startTestRun` revision
(startTestRun.ts lines 325-432). -/

namespace V2

/-- Lines 356-362: the label of a synthesized assertion item — the
reported message when truthy, else a positional fallback; truncated past
80 characters. -/
def assertionLabel (index : Nat) (a : AssertionResult) : String :=
  let label0 := match a.message with
    | some m =>
      if m.isEmpty then "Assertion " ++ toString (index + 1) else m
    | none => "Assertion " ++ toString (index + 1)
  if label0.length > 80 then String.mk (label0.data.take 77) ++ "..."
  else label0

/-- Lines 393-406: the failure message of one reported assertion. -/
def assertionFailMsg (a : AssertionResult) : String :=
  joinWith "\n"
    (("Expected: " ++ a.expected ++ ", Actual: " ++ a.actual) ::
      (match a.message with
        | some m => if m.isEmpty then [] else ["\nAssertion: " ++ m]
        | none => []))

/-- Lines 369-381: the mapped source line of one assertion — requires a
truthy line and functionName and an item uri; the file system is passed
in (`vscode.workspace.fs.readFile`; a read failure yields null). -/
def assertionRange (fs : String → Option String) (target : Target)
    (a : AssertionResult) : Option Nat :=
  match a.line, a.functionName, target.uri with
  | some n, some fn, some u =>
    if n != 0 && !fn.isEmpty then
      match fs u with
      | some content => mapFunctionLineToSourceLine content fn n
      | none => none
    else none
  | _, _, _ => none

/-- The updates emitted for one reported assertion, in source order:
creation (with label and mapped range), started, then passed or failed. -/
def perAssertion (fs : String → Option String) (target : Target)
    (index : Nat) (a : AssertionResult) : List Update :=
  let itemId := target.itemId ++ "/assertion-" ++ toString index
  Update.createItem itemId (assertionLabel index a)
      (assertionRange fs target a) ::
    Update.started itemId ::
    (if a.passed then [Update.passed itemId none]
      else [Update.failed itemId (assertionFailMsg a) none])

/-- The ids handed to `children.replace`. -/
def childIds (target : Target) (count : Nat) : List String :=
  (List.range count).map
    (fun i => target.itemId ++ "/assertion-" ++ toString i)

/-- Lines 352-416: all per-assertion updates of one entry (the guard
skips an absent or empty assertions list). -/
def entryAssertUpdates (fs : String → Option String) (target : Target)
    (tr : TestResultEntry) : List Update :=
  match tr.assertions with
  | some as =>
    if as.length > 0 then
      ((as.enum.map (fun p => perAssertion fs target p.1 p.2)).flatten)
    else []
  | none => []

/-- The number of synthesized children of one entry. -/
def entryChildCount (tr : TestResultEntry) : Nat :=
  match tr.assertions with
  | some as => if as.length > 0 then as.length else 0
  | none => 0

/-- One `testResults` entry of the second-revision `handleResults`: the
emitted updates, and whether the JavaScript throws (the failed branch
reads `assertions.filter` without a guard). -/
def processEntry (fs : String → Option String) (testTargets : List Target)
    (tr : TestResultEntry) : List Update × Bool :=
  match findTarget testTargets tr with
  | none =>
    ([Update.diag ("Warning: Could not find TestItem for " ++ tr.suite
      ++ "." ++ tr.name ++ "\n")], false)
  | some target =>
    let assertUpds := entryAssertUpdates fs target tr
    let replaced := Update.replaceChildren target.itemId
      (childIds target (entryChildCount tr))
    if tr.passed then
      (assertUpds ++ [replaced,
        Update.passed target.itemId (some (tr.duration.getD 0))], false)
    else
      match tr.assertions with
      | none => (assertUpds ++ [replaced], true)
      | some as =>
        let failedCount := (as.filter (fun a => !a.passed)).length
        (assertUpds ++ [replaced,
          Update.failed target.itemId
            (toString failedCount ++ " of " ++ toString tr.assertionCount
              ++ " assertions failed")
            (some (tr.duration.getD 0))], false)

/-- The entry loop, stopping on a thrown entry. -/
def runEntries (fs : String → Option String) (testTargets : List Target) :
    List TestResultEntry → List Update × Bool
  | [] => ([], false)
  | tr :: rest =>
    let r := processEntry fs testTargets tr
    if r.2 then (r.1, true)
    else
      let rr := runEntries fs testTargets rest
      (r.1 ++ rr.1, rr.2)

/-- `handleResults` (second revision). -/
def handleResults (fs : String → Option String) (testTargets : List Target)
    (results : Payload) : List Update × Bool :=
  match results.testResults with
  | none => ([], false)
  | some entries => runEntries fs testTargets entries

end V2

/-! ### JSON extraction and the close handler (second revision) -/

/-- Opening brace character. -/
def lbrace : Char := '\x7b'

/-- Closing brace character. -/
def rbrace : Char := '\x7d'

/-- Lines 291-305: locate the first opening and last closing brace of
the buffered output and cut the candidate JSON substring
(`output.substring(firstBrace, lastBrace + 1)`). -/
def extractJson (output : List Char) : Option (List Char) :=
  match idxOfFirst lbrace output, idxOfLast rbrace output with
  | some firstBrace, some lastBrace =>
    if firstBrace > lastBrace then none
    else some ((output.drop firstBrace).take (lastBrace + 1 - firstBrace))
  | _, _ => none

/-- The delimiters are missing or inverted. -/
def delimsBad (output : List Char) : Bool :=
  match idxOfFirst lbrace output, idxOfLast rbrace output with
  | some firstBrace, some lastBrace => firstBrace > lastBrace
  | _, _ => true

/-- The close handler of the second revision (lines 288-318): nothing at
all when the buffered output is blank; a diagnostic when no JSON
delimiters are found; a parse-error diagnostic when JSON.parse throws
(the parse parameter stands for JSON.parse and returns the error
message); otherwise the reconciliation updates — with the catch-all
diagnostics appended when reconciliation itself throws (the exact
TypeError text is runtime specific; a fixed marker stands for it).  The
pretty-printed echo of the payload is display-only and not modelled. -/
def onClose (parse : List Char → Except String Payload)
    (fs : String → Option String) (testTargets : List Target)
    (output : String) : List Update :=
  if (trimWS output.data).isEmpty then []
  else
    match extractJson output.data with
    | none => [Update.diag "Could not find valid JSON in output\n"]
    | some jsonStr =>
      match parse jsonStr with
      | Except.error e =>
        [Update.diag ("Error parsing JSON: " ++ e ++ "\n"),
          Update.diag ("Output was:\n" ++ output ++ "\n")]
      | Except.ok results =>
        let r := V2.handleResults fs testTargets results
        if r.2 then
          r.1 ++ [Update.diag "Error parsing JSON: TypeError\n",
            Update.diag ("Output was:\n" ++ output ++ "\n")]
        else r.1

/-! ### Lemmas about `splitOnSep` -/

theorem splitOnSep_ne_nil (c : Char) (l : List Char) : splitOnSep c l ≠ [] := by
  induction l with
  | nil => simp [splitOnSep]
  | cons a l ih =>
    by_cases h : a = c
    · simp [splitOnSep, h]
    · simp only [splitOnSep, if_neg h]
      cases hr : splitOnSep c l with
      | nil => simp
      | cons p r => simp

theorem not_mem_of_mem_splitOnSep (c : Char) (l : List Char) :
    ∀ x ∈ splitOnSep c l, c ∉ x := by
  induction l with
  | nil => intro x hx; simp [splitOnSep] at hx; simp [hx]
  | cons a l ih =>
    intro x hx
    by_cases h : a = c
    · simp only [splitOnSep, if_pos h, List.mem_cons] at hx
      rcases hx with rfl | hx
      · simp
      · exact ih x hx
    · simp only [splitOnSep, if_neg h] at hx
      cases hr : splitOnSep c l with
      | nil => exact absurd hr (splitOnSep_ne_nil c l)
      | cons p r =>
        rw [hr] at hx
        rcases List.mem_cons.1 hx with rfl | hx
        · intro hmem
          rcases List.mem_cons.1 hmem with rfl | hmem
          · exact h rfl
          · exact ih p (hr ▸ List.mem_cons_self p r) hmem
        · exact ih x (hr ▸ List.mem_cons_of_mem p hx)

theorem splitOnSep_of_not_mem {c : Char} {a : List Char} (h : c ∉ a) :
    splitOnSep c a = [a] := by
  induction a with
  | nil => rfl
  | cons x a ih =>
    have hx : ¬ x = c := fun e => h (e ▸ List.mem_cons_self x a)
    have ha : c ∉ a := fun e => h (List.mem_cons_of_mem x e)
    simp only [splitOnSep, if_neg hx, ih ha]

theorem splitOnSep_append {c : Char} {a : List Char} (b : List Char)
    (h : c ∉ a) : splitOnSep c (a ++ c :: b) = a :: splitOnSep c b := by
  induction a with
  | nil => simp [splitOnSep]
  | cons x a ih =>
    have hx : ¬ x = c := fun e => h (e ▸ List.mem_cons_self x a)
    have ha : c ∉ a := fun e => h (List.mem_cons_of_mem x e)
    simp only [List.cons_append, splitOnSep, if_neg hx, List.append_eq]
    rw [ih ha]

/-! ### Scanner lemmas -/

theorem headingExec_window {prev cur : List Char}
    (hp : '\n' ∉ prev) (hc : '\n' ∉ cur) :
    headingExec ((if prev.isEmpty then [] else prev ++ ['\n']) ++ cur) =
      if !prev.isEmpty && declLine cur then
        some (tagsGroup prev, headingNameOf cur)
      else none := by
  cases prev with
  | nil =>
    have h1 : ((if ([] : List Char).isEmpty then ([] : List Char)
        else [] ++ ['\n']) ++ cur) = cur := rfl
    have h2 : (!([] : List Char).isEmpty && declLine cur) = false := rfl
    rw [h1, h2]
    have h3 : headingExec cur = none := by
      unfold headingExec
      rw [splitOnSep_of_not_mem hc]
    rw [h3]
    simp
  | cons p ps =>
    have h1 : (if ((p :: ps) : List Char).isEmpty then ([] : List Char)
        else (p :: ps) ++ ['\n']) = (p :: ps) ++ ['\n'] := rfl
    have h2 : (!((p :: ps) : List Char).isEmpty && declLine cur)
        = declLine cur := rfl
    rw [h1, h2]
    have h3 : ((p :: ps) ++ ['\n']) ++ cur = (p :: ps) ++ '\n' :: cur := by
      simp
    rw [h3]
    unfold headingExec
    rw [splitOnSep_append cur hp, splitOnSep_of_not_mem hc]

theorem qualEvents_cons (line : List Char) (rest : List (List Char))
    (prevLine : List Char) (n : Nat) :
    qualEvents (line :: rest) prevLine n =
      if (!prevLine.isEmpty && declLine line) = true then
        mkHeadingEvent n line prevLine :: qualEvents rest line (n + 1)
      else qualEvents rest line (n + 1) := rfl

theorem idxsWhere_cons {α : Type} (p : α → Bool) (a : α) (as : List α) (n : Nat) :
    idxsWhere p (a :: as) n =
      if p a = true then n :: idxsWhere p as (n + 1)
      else idxsWhere p as (n + 1) := rfl

theorem parseLinesV1_eq_qualEvents :
    ∀ (rest : List (List Char)) (prevLine : List Char) (n : Nat),
      '\n' ∉ prevLine → (∀ x ∈ rest, '\n' ∉ x) →
      parseLinesV1 rest prevLine n =
        (qualEvents rest prevLine n, !(qualEvents rest prevLine n).isEmpty) := by
  intro rest
  induction rest with
  | nil => intro prevLine n _ _; rfl
  | cons line rest ih =>
    intro prevLine n hp hr
    have hline : '\n' ∉ line := hr line (List.mem_cons_self line rest)
    have hrest : ∀ x ∈ rest, '\n' ∉ x :=
      fun x hx => hr x (List.mem_cons_of_mem line hx)
    have hrec := ih line (n + 1) hline hrest
    simp only [parseLinesV1]
    rw [headingExec_window hp hline, qualEvents_cons]
    by_cases hcond : (!prevLine.isEmpty && declLine line) = true
    · rw [if_pos hcond, if_pos hcond, hrec]
      rfl
    · rw [if_neg hcond, if_neg hcond, hrec]

theorem qualEvents_map_startLine :
    ∀ (rest : List (List Char)) (prevLine : List Char) (n : Nat),
      (qualEvents rest prevLine n).map (fun e => e.range.start.line) =
        idxsWhere scannedDecl (rest.zip (prevLine :: rest)) n := by
  intro rest
  induction rest with
  | nil => intro prevLine n; rfl
  | cons line rest ih =>
    intro prevLine n
    have hz : (line :: rest).zip (prevLine :: line :: rest) =
        (line, prevLine) :: rest.zip (line :: rest) := rfl
    rw [hz, qualEvents_cons, idxsWhere_cons]
    by_cases hcond : (!prevLine.isEmpty && declLine line) = true
    · have hsw : scannedDecl (line, prevLine) = true := by
        rw [Bool.and_eq_true] at hcond
        show (declLine line && !prevLine.isEmpty) = true
        rw [Bool.and_eq_true]
        exact ⟨hcond.2, hcond.1⟩
      rw [if_pos hcond, if_pos hsw, List.map_cons, ih line (n + 1)]
      rfl
    · have hsw : ¬ scannedDecl (line, prevLine) = true := by
        intro h
        apply hcond
        have h2 : (declLine line && !prevLine.isEmpty) = true := h
        rw [Bool.and_eq_true] at h2
        rw [Bool.and_eq_true]
        exact ⟨h2.2, h2.1⟩
      rw [if_neg hcond, if_neg hsw, ih line (n + 1)]

theorem mem_qualEvents :
    ∀ (rest : List (List Char)) (prevLine : List Char) (n : Nat)
      (e : HeadingEvent), e ∈ qualEvents rest prevLine n →
      ∃ j, j < rest.length ∧
        e = mkHeadingEvent (n + j) (rest.getD j []) ((prevLine :: rest).getD j []) ∧
        ((prevLine :: rest).getD j []).isEmpty = false ∧
        declLine (rest.getD j []) = true := by
  intro rest
  induction rest with
  | nil => intro prevLine n e he; simp [qualEvents] at he
  | cons line rest ih =>
    intro prevLine n e he
    rw [qualEvents_cons] at he
    by_cases hcond : (!prevLine.isEmpty && declLine line) = true
    · rw [if_pos hcond] at he
      rw [Bool.and_eq_true] at hcond
      rcases List.mem_cons.1 he with rfl | he
      · refine ⟨0, by simp, by simp [List.getD], ?_, hcond.2⟩
        have h1 := hcond.1
        rw [Bool.not_eq_true'] at h1
        simpa using h1
      · rcases ih line (n + 1) e he with ⟨j, hj, hev, hne, hdecl⟩
        refine ⟨j + 1, by simpa using hj, ?_, ?_, ?_⟩
        · have harith : n + (j + 1) = (n + 1) + j := by omega
          rw [harith]
          simpa using hev
        · simpa using hne
        · simpa using hdecl
    · rw [if_neg hcond] at he
      rcases ih line (n + 1) e he with ⟨j, hj, hev, hne, hdecl⟩
      refine ⟨j + 1, by simpa using hj, ?_, ?_, ?_⟩
      · have harith : n + (j + 1) = (n + 1) + j := by omega
        rw [harith]
        simpa using hev
      · simpa using hne
      · simpa using hdecl

/-! ### Lemmas about the walk -/

theorem boundaryIdxs_cons_cont {l : List Char} (h : hasContinuation l = true)
    (ls : List (List Char)) (idx : Nat) :
    boundaryIdxs (l :: ls) idx = boundaryIdxs ls (idx + 1) := by
  simp [boundaryIdxs, h]

theorem boundaryIdxs_cons_stop {l : List Char} (h : hasContinuation l = false)
    (ls : List (List Char)) (idx : Nat) :
    boundaryIdxs (l :: ls) idx = idx :: boundaryIdxs ls (idx + 1) := by
  simp [boundaryIdxs, h]

theorem walk_cons_cont {l : List Char} (h : hasContinuation l = true)
    (ls : List (List Char)) (c idx t : Nat) :
    walkLogicalLines (l :: ls) c idx t = walkLogicalLines ls c (idx + 1) t := by
  simp [walkLogicalLines, h]

theorem walk_cons_hit {l : List Char} (h : hasContinuation l = false)
    (ls : List (List Char)) {c t : Nat} (idx : Nat) (ht : c + 1 = t) :
    walkLogicalLines (l :: ls) c idx t = some idx := by
  simp [walkLogicalLines, h, ht]

theorem walk_cons_miss {l : List Char} (h : hasContinuation l = false)
    (ls : List (List Char)) {c t : Nat} (idx : Nat) (ht : ¬ c + 1 = t) :
    walkLogicalLines (l :: ls) c idx t =
      walkLogicalLines ls (c + 1) (idx + 1) t := by
  simp [walkLogicalLines, h, ht]

theorem walkLogicalLines_eq_boundaryIdxs (ls : List (List Char)) :
    ∀ c idx t, c < t →
      walkLogicalLines ls c idx t = (boundaryIdxs ls idx)[t - c - 1]? := by
  induction ls with
  | nil => intro c idx t _; simp [walkLogicalLines, boundaryIdxs]
  | cons l ls ih =>
    intro c idx t hct
    cases hcont : hasContinuation l with
    | true =>
      rw [walk_cons_cont hcont, boundaryIdxs_cons_cont hcont]
      exact ih c (idx + 1) t hct
    | false =>
      rw [boundaryIdxs_cons_stop hcont]
      by_cases hhit : c + 1 = t
      · rw [walk_cons_hit hcont ls idx hhit]
        have h0 : t - c - 1 = 0 := by omega
        simp [h0]
      · rw [walk_cons_miss hcont ls idx hhit]
        rw [ih (c + 1) (idx + 1) t (by omega)]
        have h2 : t - c - 1 = (t - (c + 1) - 1) + 1 := by omega
        simp [h2]

theorem walkLogicalLines_none_of_le (ls : List (List Char)) :
    ∀ c idx t, t ≤ c → walkLogicalLines ls c idx t = none := by
  induction ls with
  | nil => intro c idx t _; simp [walkLogicalLines]
  | cons l ls ih =>
    intro c idx t htc
    cases hcont : hasContinuation l with
    | true => rw [walk_cons_cont hcont]; exact ih c (idx + 1) t htc
    | false =>
      rw [walk_cons_miss hcont ls idx (by omega)]
      exact ih (c + 1) (idx + 1) t (by omega)

theorem walkLogicalLines_some_ge (ls : List (List Char)) :
    ∀ c idx t p, walkLogicalLines ls c idx t = some p → idx ≤ p := by
  induction ls with
  | nil => intro c idx t p h; simp [walkLogicalLines] at h
  | cons l ls ih =>
    intro c idx t p h
    cases hcont : hasContinuation l with
    | true =>
      rw [walk_cons_cont hcont] at h
      exact Nat.le_of_succ_le (ih c (idx + 1) t p h)
    | false =>
      by_cases hhit : c + 1 = t
      · rw [walk_cons_hit hcont ls idx hhit] at h
        injection h with h
        omega
      · rw [walk_cons_miss hcont ls idx hhit] at h
        exact Nat.le_of_succ_le (ih (c + 1) (idx + 1) t p h)

theorem mem_boundaryIdxs_ge (ls : List (List Char)) :
    ∀ idx n, n ∈ boundaryIdxs ls idx → idx ≤ n := by
  induction ls with
  | nil => intro idx n h; simp [boundaryIdxs] at h
  | cons l ls ih =>
    intro idx n h
    cases hcont : hasContinuation l with
    | true =>
      rw [boundaryIdxs_cons_cont hcont] at h
      exact Nat.le_of_succ_le (ih (idx + 1) n h)
    | false =>
      rw [boundaryIdxs_cons_stop hcont] at h
      rcases List.mem_cons.1 h with rfl | h
      · exact Nat.le_refl n
      · exact Nat.le_of_succ_le (ih (idx + 1) n h)

theorem boundaryIdxs_pairwise_lt (ls : List (List Char)) :
    ∀ idx, (boundaryIdxs ls idx).Pairwise (· < ·) := by
  induction ls with
  | nil => intro idx; simp [boundaryIdxs]
  | cons l ls ih =>
    intro idx
    cases hcont : hasContinuation l with
    | true => rw [boundaryIdxs_cons_cont hcont]; exact ih (idx + 1)
    | false =>
      rw [boundaryIdxs_cons_stop hcont]
      exact List.pairwise_cons.2
        ⟨fun n hn => Nat.lt_of_succ_le (mem_boundaryIdxs_ge ls (idx + 1) n hn),
          ih (idx + 1)⟩

/-- In a strictly increasing list, earlier positions hold smaller values. -/
theorem pairwise_lt_getElem? {l : List Nat} (hp : l.Pairwise (· < ·))
    {i j a b : Nat} (hij : i < j) (ha : l[i]? = some a) (hb : l[j]? = some b) :
    a < b := by
  rcases List.getElem?_eq_some_iff.1 ha with ⟨hi, rfl⟩
  rcases List.getElem?_eq_some_iff.1 hb with ⟨hj, rfl⟩
  exact List.pairwise_iff_getElem.1 hp i j hi hj hij

/-- The mapper, characterized through the boundary list (shared helper). -/
theorem map_eq_boundary (content functionName : String) (k : Nat)
    (hk : 1 ≤ k) :
    mapFunctionLineToSourceLine content functionName k =
      (functionDeclLine content functionName).bind
        (fun s =>
          (boundaryIdxs ((splitOnSep '\n' content.data).drop (s + 1))
            (s + 1))[k - 1]?) := by
  unfold mapFunctionLineToSourceLine
  cases hd : functionDeclLine content functionName with
  | none => rfl
  | some s =>
    show walkLogicalLines ((splitOnSep '\n' content.data).drop (s + 1)) 0
        (s + 1) k = _
    rw [walkLogicalLines_eq_boundaryIdxs _ 0 (s + 1) k hk]
    rfl

/-- Offset zero never resolves (the completed count starts at one). -/
theorem map_offset_zero (content functionName : String) :
    mapFunctionLineToSourceLine content functionName 0 = none := by
  unfold mapFunctionLineToSourceLine
  cases hd : functionDeclLine content functionName with
  | none => rfl
  | some s =>
    exact walkLogicalLines_none_of_le _ 0 (s + 1) 0 (Nat.le_refl 0)

/-- The scanner output in its reference form (shared helper). -/
theorem parseMarkdown_eq (text : String) :
    parseMarkdown text =
      (qualEvents (splitOnSep '\n' text.data) [] 0,
        !(qualEvents (splitOnSep '\n' text.data) [] 0).isEmpty) :=
  parseLinesV1_eq_qualEvents _ [] 0 (by simp)
    (not_mem_of_mem_splitOnSep _ _)

/-! ### Claim theorems: the line-continuation mapper -/

/-- C1: for every file text, function name and logical offset k ≥ 1, the
mapper locates the declaration line (matching the trailing identifier of
the possibly dot-qualified name), walks forward from the following line,
and returns the physical index at which the k-th logical-line boundary
(a physical line not ending, after trailing whitespace, in a backslash)
is reached — null when the function is not located or fewer than k
logical lines remain. -/
theorem c1_mapper_maps_kth_boundary (content functionName : String)
    (k : Nat) (hk : 1 ≤ k) :
    mapFunctionLineToSourceLine content functionName k =
      (functionDeclLine content functionName).bind
        (fun s =>
          (boundaryIdxs ((splitOnSep '\n' content.data).drop (s + 1))
            (s + 1))[k - 1]?) :=
  map_eq_boundary content functionName k hk

/-- C1 witness: a concrete file with one continuation-folded line. -/
theorem c1_mapper_maps_kth_boundary_witness :
    1 ≤ 1 ∧
    mapFunctionLineToSourceLine
      "Function test_f($t)\nvar $x \\\n:=1\nreturn" "Cls.test_f" 1 =
      (functionDeclLine
        "Function test_f($t)\nvar $x \\\n:=1\nreturn" "Cls.test_f").bind
        (fun s =>
          (boundaryIdxs
            ((splitOnSep '\n'
              ("Function test_f($t)\nvar $x \\\n:=1\nreturn").data).drop (s + 1))
            (s + 1))[1 - 1]?) ∧
    mapFunctionLineToSourceLine
      "Function test_f($t)\nvar $x \\\n:=1\nreturn" "Cls.test_f" 1 = some 2 :=
  ⟨Nat.le_refl 1,
    c1_mapper_maps_kth_boundary
      "Function test_f($t)\nvar $x \\\n:=1\nreturn" "Cls.test_f" 1 (Nat.le_refl 1),
    by decide⟩

/-- C9: for a fixed file and function, increasing logical offsets map to
strictly increasing physical lines, and the line mapped at offset k is
the k-th logical-line boundary after the declaration. -/
theorem c9_mapper_strictly_monotone (content functionName : String)
    (k₁ k₂ p₁ p₂ : Nat) (hk : k₁ < k₂)
    (h1 : mapFunctionLineToSourceLine content functionName k₁ = some p₁)
    (h2 : mapFunctionLineToSourceLine content functionName k₂ = some p₂) :
    p₁ < p₂ ∧
    ∃ s, functionDeclLine content functionName = some s ∧
      (boundaryIdxs ((splitOnSep '\n' content.data).drop (s + 1))
        (s + 1))[k₁ - 1]? = some p₁ := by
  have hk1 : 1 ≤ k₁ := by
    by_contra hlt
    have hk0 : k₁ = 0 := by omega
    rw [hk0, map_offset_zero] at h1
    exact Option.noConfusion h1
  have hk2 : 1 ≤ k₂ := by omega
  have e1 := map_eq_boundary content functionName k₁ hk1
  have e2 := map_eq_boundary content functionName k₂ hk2
  rw [h1] at e1
  rw [h2] at e2
  cases hd : functionDeclLine content functionName with
  | none =>
    rw [hd] at e1
    exact Option.noConfusion e1
  | some s =>
    rw [hd] at e1
    rw [hd] at e2
    have e1' : (boundaryIdxs ((splitOnSep '\n' content.data).drop (s + 1))
        (s + 1))[k₁ - 1]? = some p₁ := e1.symm
    have e2' : (boundaryIdxs ((splitOnSep '\n' content.data).drop (s + 1))
        (s + 1))[k₂ - 1]? = some p₂ := e2.symm
    refine ⟨?_, s, rfl, e1'⟩
    exact pairwise_lt_getElem? (boundaryIdxs_pairwise_lt _ (s + 1))
      (by omega) e1' e2'

/-- C9 witness: offsets 1 and 2 on a concrete continuation-folded file. -/
theorem c9_mapper_strictly_monotone_witness :
    mapFunctionLineToSourceLine
      "Function test_f($t)\nvar $x \\\n:=1\nreturn" "test_f" 1 = some 2 ∧
    mapFunctionLineToSourceLine
      "Function test_f($t)\nvar $x \\\n:=1\nreturn" "test_f" 2 = some 3 ∧
    2 < 3 :=
  ⟨by decide, by decide,
    (c9_mapper_strictly_monotone
      "Function test_f($t)\nvar $x \\\n:=1\nreturn" "test_f" 1 2 2 3
      (by decide) (by decide) (by decide)).1⟩

/-- C10: every successful mapping lands strictly after the physical line
of the located declaration; no offset maps to the declaration itself. -/
theorem c10_mapped_line_after_decl (content functionName : String)
    (k p : Nat)
    (h : mapFunctionLineToSourceLine content functionName k = some p) :
    ∃ s, functionDeclLine content functionName = some s ∧ s < p := by
  unfold mapFunctionLineToSourceLine at h
  cases hd : functionDeclLine content functionName with
  | none =>
    rw [hd] at h
    exact Option.noConfusion h
  | some s =>
    rw [hd] at h
    exact ⟨s, rfl,
      Nat.lt_of_succ_le (walkLogicalLines_some_ge _ 0 (s + 1) k p h)⟩

/-- C10 witness. -/
theorem c10_mapped_line_after_decl_witness :
    ∃ s, functionDeclLine "Function test_f($t)\nline" "test_f" = some s ∧
      s < 1 :=
  c10_mapped_line_after_decl "Function test_f($t)\nline" "test_f" 1 1
    (by decide)

/-! ### Claim theorems: the scanner -/

/-- C4 counterexample: a file whose single physical line is a
syntactically valid declaration.  The claim predicts one heading event
and a true return; the scanner reports nothing and returns false,
because the two-line window it matches holds no newline when the
previous line is absent (the same happens after an empty line). -/
theorem c4_scanner_event_count_counterexample :
    (idxsWhere claimedDecl
      (linePairs (splitOnSep '\n' ("Function test_a($t)").data)) 0).length = 1 ∧
    (parseMarkdown "Function test_a($t)").1.length = 0 ∧
    (parseMarkdown "Function test_a($t)").2 = false := by
  decide

/-- C4 (amended): the scanner reports exactly one heading event per
syntactically valid declaration that is preceded by a non-empty physical
line, each with range starting at column 0 of the declaration line, and
returns true iff at least one such declaration exists. -/
theorem c4_scanner_event_count (text : String) :
    ((parseMarkdown text).1.map (fun e => e.range.start.line) =
      idxsWhere scannedDecl (linePairs (splitOnSep '\n' text.data)) 0) ∧
    (∀ e ∈ (parseMarkdown text).1,
      e.range.start.character = 0 ∧
      declLine ((splitOnSep '\n' text.data).getD e.range.start.line []) = true) ∧
    ((parseMarkdown text).2 =
      !(idxsWhere scannedDecl (linePairs (splitOnSep '\n' text.data)) 0).isEmpty) := by
  unfold linePairs
  refine ⟨?_, ?_, ?_⟩
  · rw [show (parseMarkdown text).1 =
        qualEvents (splitOnSep '\n' text.data) [] 0 from
      congrArg Prod.fst (parseMarkdown_eq text)]
    exact qualEvents_map_startLine _ [] 0
  · intro e he
    rw [show (parseMarkdown text).1 =
        qualEvents (splitOnSep '\n' text.data) [] 0 from
      congrArg Prod.fst (parseMarkdown_eq text)] at he
    rcases mem_qualEvents _ [] 0 e he with ⟨j, _, hev, _, hdecl⟩
    have hz : 0 + j = j := by omega
    rw [hz] at hev
    refine ⟨by rw [hev]; rfl, ?_⟩
    have hline : e.range.start.line = j := by rw [hev]; rfl
    rw [hline]
    exact hdecl
  · rw [show (parseMarkdown text).2 =
        !(qualEvents (splitOnSep '\n' text.data) [] 0).isEmpty from
      congrArg Prod.snd (parseMarkdown_eq text)]
    rw [← qualEvents_map_startLine (splitOnSep '\n' text.data) [] 0]
    cases qualEvents (splitOnSep '\n' text.data) [] 0 <;> rfl

/-- C4 witness: one declaration preceded by a non-empty line. -/
theorem c4_scanner_event_count_witness :
    (HeadingEvent.mk ⟨⟨1, 0⟩, ⟨1, 19⟩⟩ "test_a" 1 ["unit"]).range.start.character = 0 ∧
    declLine ((splitOnSep '\n' ("x\nFunction test_a($t)").data).getD
      (HeadingEvent.mk ⟨⟨1, 0⟩, ⟨1, 19⟩⟩ "test_a" 1 ["unit"]).range.start.line []) = true :=
  (c4_scanner_event_count "x\nFunction test_a($t)").2.1
    (HeadingEvent.mk ⟨⟨1, 0⟩, ⟨1, 19⟩⟩ "test_a" 1 ["unit"]) (by decide)

/-- C5: a heading whose previous physical line holds no tag marker, or
holds the marker with an empty payload, carries exactly the default tag
list. -/
theorem c5_default_unit_tag (text : String) (e : HeadingEvent)
    (he : e ∈ (parseMarkdown text).1)
    (h : tagsGroup ((splitOnSep '\n' text.data).getD
          (e.range.start.line - 1) []) = none ∨
        tagsGroup ((splitOnSep '\n' text.data).getD
          (e.range.start.line - 1) []) = some []) :
    e.tags = ["unit"] := by
  rw [show (parseMarkdown text).1 =
      qualEvents (splitOnSep '\n' text.data) [] 0 from
    congrArg Prod.fst (parseMarkdown_eq text)] at he
  rcases mem_qualEvents _ [] 0 e he with ⟨j, _, hev, hne, _⟩
  have hz : 0 + j = j := by omega
  rw [hz] at hev
  cases j with
  | zero =>
    exfalso
    simp [List.getD] at hne
  | succ i =>
    have hline : e.range.start.line = i + 1 := by rw [hev]; rfl
    rw [hline] at h
    simp only [Nat.add_sub_cancel] at h
    have hprev : ((([] : List Char) :: splitOnSep '\n' text.data).getD (i + 1) [])
        = (splitOnSep '\n' text.data).getD i [] := rfl
    have htags : e.tags =
        headingTagsOf (mkTagsDefault
          (tagsGroup ((splitOnSep '\n' text.data).getD i []))) := by
      rw [hev]
      rfl
    rcases h with h | h
    · rw [htags, h]
      decide
    · rw [htags, h]
      decide

/-- C5 witness: a heading with no tag comment on the previous line. -/
theorem c5_default_unit_tag_witness :
    (HeadingEvent.mk ⟨⟨1, 0⟩, ⟨1, 19⟩⟩ "test_a" 1 ["unit"]).tags = ["unit"] :=
  c5_default_unit_tag "x\nFunction test_a($t)"
    (HeadingEvent.mk ⟨⟨1, 0⟩, ⟨1, 19⟩⟩ "test_a" 1 ["unit"])
    (by decide) (Or.inl (by decide))

/-! Concrete evaluations of the mapper (sanity checks). -/

example :
    mapFunctionLineToSourceLine
      "Class constructor()\nFunction test_f($t)\nvar $x \\\n:=1\ndone"
      "Cls.test_f" 1 = some 3 := by decide

example :
    mapFunctionLineToSourceLine
      "Function test_f($t)\na\nb" "test_f" 2 = some 2 := by decide

example :
    mapFunctionLineToSourceLine "x\ny" "test_f" 1 = none := by decide

/-! ### Claim theorems: invocation arguments -/

theorem dropLead_append (p rest : List Char) :
    dropLead p (p ++ rest) = some rest := by
  induction p with
  | nil => rfl
  | cons c p ih => simp [dropLead, ih]

theorem isTagArg_of_tag (t : String) : isTagArg ("tag=" ++ t) = true := by
  show (dropLead ("tag=").data (("tag=" ++ t)).data).isSome = true
  rw [String.data_append, dropLead_append]
  rfl

theorem isTestListArg_of_tag (t : String) :
    isTestListArg ("tag=" ++ t) = false := by
  show (dropLead ("test=").data (("tag=" ++ t)).data).isSome = false
  rw [String.data_append]
  rfl

theorem isTagArg_of_testList (t : String) :
    isTagArg ("test=" ++ t) = false := by
  show (dropLead ("tag=").data (("test=" ++ t)).data).isSome = false
  rw [String.data_append]
  rfl

theorem isTestListArg_of_testList (t : String) :
    isTestListArg ("test=" ++ t) = true := by
  show (dropLead ("test=").data (("test=" ++ t)).data).isSome = true
  rw [String.data_append, dropLead_append]
  rfl

/-- C3: the runner argument list always holds `test` and `format=json`,
and exactly one of a tag filter or an explicit function list — except
that running all tests with no extracted tag supplies neither. -/
theorem c3_invocation_args (profileLabel : Option String)
    (isRunningAllTests : Bool) (testTargets : List Target) :
    "test" ∈ buildCmdArgs profileLabel isRunningAllTests testTargets ∧
    "format=json" ∈ buildCmdArgs profileLabel isRunningAllTests testTargets ∧
    (∀ t, extractTag profileLabel = some t →
      (buildCmdArgs profileLabel isRunningAllTests testTargets).filter isTagArg
          = ["tag=" ++ t] ∧
      (buildCmdArgs profileLabel isRunningAllTests testTargets).filter isTestListArg
          = []) ∧
    (extractTag profileLabel = none → isRunningAllTests = false →
      (buildCmdArgs profileLabel isRunningAllTests testTargets).filter isTagArg
          = [] ∧
      (buildCmdArgs profileLabel isRunningAllTests testTargets).filter isTestListArg
          = ["test=" ++ joinWith "," (uniqueTargets testTargets)]) ∧
    (extractTag profileLabel = none → isRunningAllTests = true →
      (buildCmdArgs profileLabel isRunningAllTests testTargets).filter isTagArg
          = [] ∧
      (buildCmdArgs profileLabel isRunningAllTests testTargets).filter isTestListArg
          = []) := by
  cases he : extractTag profileLabel with
  | some t =>
    have hargs : buildCmdArgs profileLabel isRunningAllTests testTargets =
        ["test", "format=json", "tag=" ++ t] := by
      unfold buildCmdArgs
      rw [he]
      rfl
    refine ⟨by rw [hargs]; simp, by rw [hargs]; simp, ?_, ?_, ?_⟩
    · intro t' ht'
      injection ht' with ht'
      subst ht'
      rw [hargs]
      constructor
      · simp [List.filter_cons, isTagArg_of_tag t,
          show isTagArg "test" = false from rfl,
          show isTagArg "format=json" = false from rfl]
      · simp [List.filter_cons, isTestListArg_of_tag t,
          show isTestListArg "test" = false from rfl,
          show isTestListArg "format=json" = false from rfl]
    · intro hnone
      exact absurd hnone (by simp)
    · intro hnone
      exact absurd hnone (by simp)
  | none =>
    cases hall : isRunningAllTests with
    | false =>
      have hargs : buildCmdArgs profileLabel false testTargets =
          ["test", "format=json",
            "test=" ++ joinWith "," (uniqueTargets testTargets)] := by
        unfold buildCmdArgs
        rw [he]
        rfl
      refine ⟨by rw [hargs]; simp, by rw [hargs]; simp, ?_, ?_, ?_⟩
      · intro t' ht'
        exact absurd ht' (by simp)
      · intro _ _
        rw [hargs]
        constructor
        · simp [List.filter_cons, isTagArg_of_testList,
            show isTagArg "test" = false from rfl,
            show isTagArg "format=json" = false from rfl]
        · simp [List.filter_cons, isTestListArg_of_testList,
            show isTestListArg "test" = false from rfl,
            show isTestListArg "format=json" = false from rfl]
      · intro _ hcontra
        exact absurd hcontra (by simp)
    | true =>
      have hargs : buildCmdArgs profileLabel true testTargets =
          ["test", "format=json"] := by
        unfold buildCmdArgs
        rw [he]
        rfl
      refine ⟨by rw [hargs]; simp, by rw [hargs]; simp, ?_, ?_, ?_⟩
      · intro t' ht'
        exact absurd ht' (by simp)
      · intro _ hcontra
        exact absurd hcontra (by simp)
      · intro _ _
        rw [hargs]
        constructor
        · simp [List.filter_cons,
            show isTagArg "test" = false from rfl,
            show isTagArg "format=json" = false from rfl]
        · simp [List.filter_cons,
            show isTestListArg "test" = false from rfl,
            show isTestListArg "format=json" = false from rfl]

/-! ### Lemmas about the older scanner and the builder -/

theorem parseV2_step_test {line : List Char}
    {op act exp shd : List Char}
    (hx : execTest line = some (op, act, exp, shd))
    (rest : List (List Char)) (lastline : List Char) (n : Nat) :
    parseLinesV2 (line :: rest) lastline n =
      (ParseEvent.test ⟨⟨⟨n, 0⟩, ⟨n, line.length⟩⟩,
        String.mk act, String.mk op, String.mk exp, String.mk shd⟩ ::
          (parseLinesV2 rest line (n + 1)).1,
        (parseLinesV2 rest line (n + 1)).2) := by
  simp only [parseLinesV2, hx]

theorem parseV2_step_heading {line lastline : List Char}
    {g nm : List Char}
    (hx : execTest line = none)
    (hh : headingExecV2
      ((if lastline.isEmpty then [] else lastline ++ ['\n']) ++ line) =
      some (g, nm))
    (rest : List (List Char)) (n : Nat) :
    parseLinesV2 (line :: rest) lastline n =
      (ParseEvent.heading (mkHeadingEventV2 n line.length g nm) ::
          (parseLinesV2 rest line (n + 1)).1,
        true) := by
  simp only [parseLinesV2, hx, hh]

theorem parseV2_step_none {line lastline : List Char}
    (hx : execTest line = none)
    (hh : headingExecV2
      ((if lastline.isEmpty then [] else lastline ++ ['\n']) ++ line) =
      none)
    (rest : List (List Char)) (n : Nat) :
    parseLinesV2 (line :: rest) lastline n =
      parseLinesV2 rest line (n + 1) := by
  simp only [parseLinesV2, hx, hh]

theorem parseLinesV2_line_lb :
    ∀ (rest : List (List Char)) (lastline : List Char) (n : Nat)
      (e : ParseEvent), e ∈ (parseLinesV2 rest lastline n).1 →
      n ≤ eventLine e := by
  intro rest
  induction rest with
  | nil => intro lastline n e he; simp [parseLinesV2] at he
  | cons line rest ih =>
    intro lastline n e he
    cases hx : execTest line with
    | some q =>
      obtain ⟨op, act, exp, shd⟩ := q
      rw [parseV2_step_test hx] at he
      rcases List.mem_cons.1 he with rfl | he
      · exact Nat.le_refl n
      · exact Nat.le_of_succ_le (ih line (n + 1) e he)
    | none =>
      cases hh : headingExecV2
          ((if lastline.isEmpty then [] else lastline ++ ['\n']) ++ line) with
      | some p =>
        obtain ⟨g, nm⟩ := p
        rw [parseV2_step_heading hx hh] at he
        rcases List.mem_cons.1 he with rfl | he
        · exact Nat.le_refl n
        · exact Nat.le_of_succ_le (ih line (n + 1) e he)
      | none =>
        rw [parseV2_step_none hx hh] at he
        exact Nat.le_of_succ_le (ih line (n + 1) e he)

theorem parseLinesV2_lines_pairwise :
    ∀ (rest : List (List Char)) (lastline : List Char) (n : Nat),
      ((parseLinesV2 rest lastline n).1.map eventLine).Pairwise (· < ·) := by
  intro rest
  induction rest with
  | nil => intro lastline n; simp [parseLinesV2]
  | cons line rest ih =>
    intro lastline n
    cases hx : execTest line with
    | some q =>
      obtain ⟨op, act, exp, shd⟩ := q
      rw [parseV2_step_test hx]
      simp only [List.map_cons]
      refine List.pairwise_cons.2 ⟨?_, ih line (n + 1)⟩
      intro x hx2
      rcases List.mem_map.1 hx2 with ⟨e, he, rfl⟩
      have hlb := parseLinesV2_line_lb rest line (n + 1) e he
      show n < eventLine e
      omega
    | none =>
      cases hh : headingExecV2
          ((if lastline.isEmpty then [] else lastline ++ ['\n']) ++ line) with
      | some p =>
        obtain ⟨g, nm⟩ := p
        rw [parseV2_step_heading hx hh]
        simp only [List.map_cons]
        refine List.pairwise_cons.2 ⟨?_, ih line (n + 1)⟩
        intro x hx2
        rcases List.mem_map.1 hx2 with ⟨e, he, rfl⟩
        have hlb := parseLinesV2_line_lb rest line (n + 1) e he
        show n < eventLine e
        omega
      | none =>
        rw [parseV2_step_none hx hh]
        exact ih line (n + 1)

theorem collectRecs_cons_heading (uri : String) (h : HeadingEvent)
    (rest : List ParseEvent) (stack : List String) :
    collectRecs uri (ParseEvent.heading h :: rest) stack =
      collectRecs uri rest (h.name ::
        (if stack.length > h.depth then stack.drop (stack.length - h.depth)
          else stack)) := rfl

theorem collectRecs_cons_test (uri : String) (a : AssertionEvent)
    (rest : List ParseEvent) (stack : List String) :
    collectRecs uri (ParseEvent.test a :: rest) stack =
      (if (match stack.head? with
          | some lbl => isLead ("test_").data lbl.data
          | none => false) then
        [mkCaseRec uri a]
      else []) ++ collectRecs uri rest stack := rfl

/-- The record source lines form a sublist of the event lines. -/
theorem collectRecs_lines_sublist (uri : String) :
    ∀ (evs : List ParseEvent) (stack : List String),
      ((collectRecs uri evs stack).map (fun r => r.range.start.line)).Sublist
        (evs.map eventLine) := by
  intro evs
  induction evs with
  | nil => intro stack; simp [collectRecs]
  | cons ev rest ih =>
    intro stack
    cases ev with
    | heading h =>
      rw [collectRecs_cons_heading]
      exact List.Sublist.cons _ (ih _)
    | test a =>
      rw [collectRecs_cons_test]
      by_cases hk : (match stack.head? with
          | some lbl => isLead ("test_").data lbl.data
          | none => false) = true
      · rw [if_pos hk]
        simp only [List.singleton_append, List.map_cons]
        exact List.Sublist.cons₂ _ (ih stack)
      · rw [if_neg hk]
        simp only [List.nil_append]
        exact List.Sublist.cons _ (ih stack)

/-! ### Lemmas about the id-keyed children collection -/

theorem childId_lastWithId {items : List ChildItem} {id : String}
    {c : ChildItem} (h : lastWithId items id = some c) :
    childId c = id ∧ c ∈ items := by
  unfold lastWithId at h
  have h1 := List.find?_some h
  have h2 := List.mem_of_find?_eq_some h
  exact ⟨eq_of_beq h1, List.mem_reverse.1 h2⟩

theorem lastWithId_isSome_of_mem {items : List ChildItem} {c : ChildItem}
    (h : c ∈ items) : ∃ d, lastWithId items (childId c) = some d := by
  unfold lastWithId
  cases hf : items.reverse.find? (fun d => childId d == childId c) with
  | some d => exact ⟨d, rfl⟩
  | none =>
    exfalso
    have := List.find?_eq_none.1 hf c (List.mem_reverse.2 h)
    simp at this

theorem mem_firstIds {items : List ChildItem} {c : ChildItem}
    (h : c ∈ items) : childId c ∈ firstIds items := by
  induction items with
  | nil => cases h
  | cons a rest ih =>
    simp only [firstIds]
    rcases List.mem_cons.1 h with rfl | h
    · exact List.mem_cons_self _ _
    · by_cases he : childId c = childId a
      · rw [he]
        exact List.mem_cons_self _ _
      · refine List.mem_cons_of_mem _ (List.mem_filter.2 ⟨ih h, ?_⟩)
        simpa using he

theorem exists_of_mem_firstIds {items : List ChildItem} :
    ∀ i ∈ firstIds items, ∃ c, c ∈ items ∧ childId c = i := by
  induction items with
  | nil => intro i hi; simp [firstIds] at hi
  | cons a rest ih =>
    intro i hi
    simp only [firstIds] at hi
    rcases List.mem_cons.1 hi with rfl | hi
    · exact ⟨a, List.mem_cons_self a rest, rfl⟩
    · rcases ih i (List.mem_filter.1 hi).1 with ⟨c, hc, hci⟩
      exact ⟨c, List.mem_cons_of_mem a hc, hci⟩

theorem firstIds_nodup (items : List ChildItem) : (firstIds items).Nodup := by
  induction items with
  | nil => simp [firstIds]
  | cons a rest ih =>
    simp only [firstIds]
    refine List.nodup_cons.2 ⟨?_, ih.filter _⟩
    intro hmem
    have := (List.mem_filter.1 hmem).2
    simp at this

theorem filterMap_lastWithId_map (items : List ChildItem) :
    ∀ l : List String, (∀ i ∈ l, ∃ c, c ∈ items ∧ childId c = i) →
      (l.filterMap (lastWithId items)).map childId = l := by
  intro l
  induction l with
  | nil => intro _; rfl
  | cons i rest ih =>
    intro h
    rcases h i (List.mem_cons_self i rest) with ⟨c, hc, hci⟩
    rcases lastWithId_isSome_of_mem hc with ⟨d, hd⟩
    have hdi : lastWithId items i = some d := by rw [← hci]; exact hd
    rw [List.filterMap_cons_some hdi, List.map_cons,
      (childId_lastWithId hdi).1,
      ih (fun j hj => h j (List.mem_cons_of_mem i hj))]

theorem map_childId_replaceById (items : List ChildItem) :
    (replaceById items).map childId = firstIds items :=
  filterMap_lastWithId_map items (firstIds items)
    (fun i hi => exists_of_mem_firstIds i hi)

theorem replaceById_ids_nodup (items : List ChildItem) :
    ((replaceById items).map childId).Nodup := by
  rw [map_childId_replaceById]
  exact firstIds_nodup items

theorem mem_of_mem_replaceById {items : List ChildItem} {c : ChildItem}
    (h : c ∈ replaceById items) : c ∈ items := by
  unfold replaceById at h
  rcases List.mem_filterMap.1 h with ⟨i, _, hi⟩
  exact (childId_lastWithId hi).2

/-! ### Lemmas about the builder fold -/

theorem ascendFrames_cons_pop {depth : Nat} {f : Frame} {rest : List Frame}
    (h : rest.length + 1 > depth) :
    ascendFrames depth (f :: rest) =
      ((ascendFrames depth rest).1,
        finalizeFrame f :: (ascendFrames depth rest).2) := by
  simp only [ascendFrames]
  rw [if_pos h]

theorem ascendFrames_cons_stay {depth : Nat} {f : Frame} {rest : List Frame}
    (h : ¬ rest.length + 1 > depth) :
    ascendFrames depth (f :: rest) = (f :: rest, []) := by
  simp only [ascendFrames]
  rw [if_neg h]

theorem ascendFrames_frames_sub (depth : Nat) :
    ∀ (stack : List Frame) (g : Frame),
      g ∈ (ascendFrames depth stack).1 → g ∈ stack := by
  intro stack
  induction stack with
  | nil => intro g hg; simp [ascendFrames] at hg
  | cons f rest ih =>
    intro g hg
    by_cases hd : rest.length + 1 > depth
    · rw [ascendFrames_cons_pop hd] at hg
      exact List.mem_cons_of_mem f (ih g hg)
    · rw [ascendFrames_cons_stay hd] at hg
      exact hg

theorem ascendFrames_outputs (depth : Nat) :
    ∀ (stack : List Frame) (p : String × List ChildItem),
      p ∈ (ascendFrames depth stack).2 →
      ∃ f, f ∈ stack ∧ p = finalizeFrame f := by
  intro stack
  induction stack with
  | nil => intro p hp; simp [ascendFrames] at hp
  | cons f rest ih =>
    intro p hp
    by_cases hd : rest.length + 1 > depth
    · rw [ascendFrames_cons_pop hd] at hp
      rcases List.mem_cons.1 hp with rfl | hp
      · exact ⟨f, List.mem_cons_self f rest, rfl⟩
      · rcases ih p hp with ⟨g, hg, rfl⟩
        exact ⟨g, List.mem_cons_of_mem f hg, rfl⟩
    · rw [ascendFrames_cons_stay hd] at hp
      simp at hp

theorem buildFold_cons_heading (uri : String) (h : HeadingEvent)
    (rest : List ParseEvent) (stack : List Frame) :
    buildFold uri (ParseEvent.heading h :: rest) stack =
      (ascendFrames h.depth stack).2 ++
        buildFold uri rest (Frame.mk h.name [] ::
          (match (ascendFrames h.depth stack).1 with
            | [] => []
            | parent :: ps =>
              { parent with children := parent.children ++
                  [ChildItem.headingItem (uri ++ "/" ++ h.name) h.name
                    h.range] } :: ps)) := rfl

theorem buildFold_cons_test (uri : String) (a : AssertionEvent)
    (rest : List ParseEvent) (stack : List Frame) :
    buildFold uri (ParseEvent.test a :: rest) stack =
      buildFold uri rest
        (if (match stack.head? with
            | some f => isLead ("test_").data f.label.data
            | none => false) then
          match stack with
          | f :: ps =>
            { f with children := f.children ++
                [ChildItem.caseItem (uri ++ "/" ++ a.should)
                  (mkCaseRec uri a)] } :: ps
          | [] => []
        else stack) := rfl

/-- Every finalized entity installs the id-keyed replacement of a
children list whose assertion items are all keyed by uri/shouldMessage
(assuming the same of the initial stack). -/
theorem buildFold_sound (uri : String) :
    ∀ (evs : List ParseEvent) (stack : List Frame),
      (∀ f ∈ stack, frameGood uri f) →
      ∀ p ∈ buildFold uri evs stack,
        ∃ items, p.2 = replaceById items ∧ ∀ c ∈ items, goodCase uri c := by
  intro evs
  induction evs with
  | nil =>
    intro stack hs p hp
    rcases ascendFrames_outputs 0 stack p hp with ⟨f, hf, rfl⟩
    exact ⟨f.children, rfl, hs f hf⟩
  | cons ev rest ih =>
    intro stack hs p hp
    cases ev with
    | heading h =>
      rw [buildFold_cons_heading] at hp
      rcases List.mem_append.1 hp with hp | hp
      · rcases ascendFrames_outputs h.depth stack p hp with ⟨f, hf, rfl⟩
        exact ⟨f.children, rfl, hs f hf⟩
      · refine ih _ ?_ p hp
        intro f hf
        rcases List.mem_cons.1 hf with rfl | hf
        · intro c hc
          cases hc
        · cases hA : (ascendFrames h.depth stack).1 with
          | nil =>
            rw [hA] at hf
            cases hf
          | cons parent ps =>
            rw [hA] at hf
            rcases List.mem_cons.1 hf with rfl | hf
            · intro c hc
              rcases List.mem_append.1 hc with hc | hc
              · exact hs parent
                  (ascendFrames_frames_sub h.depth stack parent
                    (hA ▸ List.mem_cons_self parent ps)) c hc
              · rcases List.mem_cons.1 hc with rfl | hc
                · trivial
                · cases hc
            · exact hs f (ascendFrames_frames_sub h.depth stack f
                (hA ▸ List.mem_cons_of_mem parent hf))
    | test a =>
      rw [buildFold_cons_test] at hp
      refine ih _ ?_ p hp
      by_cases hk : (match stack.head? with
          | some f => isLead ("test_").data f.label.data
          | none => false) = true
      · rw [if_pos hk]
        cases stack with
        | nil => intro f hf; cases hf
        | cons f ps =>
          intro g hg
          rcases List.mem_cons.1 hg with rfl | hg
          · intro c hc
            rcases List.mem_append.1 hc with hc | hc
            · exact hs f (List.mem_cons_self f ps) c hc
            · rcases List.mem_cons.1 hc with rfl | hc
              · show uri ++ "/" ++ a.should = uri ++ "/" ++ (mkCaseRec uri a).should
                rfl
              · cases hc
          · exact hs g (List.mem_cons_of_mem f hg)
      · rw [if_neg hk]
        exact hs

/-! ### Claim theorems: result reconciliation -/

theorem extractJson_none_of_bad {output : List Char}
    (h : delimsBad output = true) : extractJson output = none := by
  unfold delimsBad at h
  unfold extractJson
  cases h1 : idxOfFirst lbrace output with
  | none => rfl
  | some f =>
    cases h2 : idxOfLast rbrace output with
    | none => rfl
    | some l =>
      rw [h1, h2] at h
      simp only [] at h
      show (if f > l then (none : Option (List Char))
        else some ((output.drop f).take (l + 1 - f))) = none
      rw [if_pos (of_decide_eq_true h)]

theorem joinWith_cons (sep a : String) (l : List String) (h : l ≠ []) :
    joinWith sep (a :: l) = a ++ sep ++ joinWith sep l := by
  cases l with
  | nil => exact absurd rfl h
  | cons b rest => rfl

/-- C2 counterexample: an empty buffered output has no JSON delimiters,
yet the close handler reports no diagnostic at all, because the whole
extraction block is guarded by a non-blank check — the claim asserts a
diagnostic whenever the delimiters are missing. -/
theorem c2_blank_output_counterexample :
    delimsBad ("" : String).data = true ∧
    onClose (fun _ => Except.error "e") (fun _ => none) [] "" = [] :=
  ⟨rfl, rfl⟩

/-- C2 (amended): the JSON payload is the substring of the buffered
output from the first opening brace to the last closing brace inclusive;
when either delimiter is missing or the first comes after the last, no
entity is marked passed or failed, and — provided the buffered output is
not blank — the no-valid-JSON diagnostic is the only reported output;
a blank buffered output ends the run silently. -/
theorem c2_payload_extraction_failure
    (parse : List Char → Except String Payload)
    (fs : String → Option String) (testTargets : List Target)
    (output : String) :
    (∀ firstBrace lastBrace,
      idxOfFirst lbrace output.data = some firstBrace →
      idxOfLast rbrace output.data = some lastBrace →
      firstBrace ≤ lastBrace →
      extractJson output.data =
        some ((output.data.drop firstBrace).take
          (lastBrace + 1 - firstBrace))) ∧
    (delimsBad output.data = true →
      (onClose parse fs testTargets output).filter isStatusUpdate = [] ∧
      ((trimWS output.data).isEmpty = false →
        onClose parse fs testTargets output =
          [Update.diag "Could not find valid JSON in output\n"])) := by
  constructor
  · intro firstBrace lastBrace h1 h2 hle
    unfold extractJson
    rw [h1, h2]
    show (if firstBrace > lastBrace then (none : Option (List Char))
      else some ((output.data.drop firstBrace).take
        (lastBrace + 1 - firstBrace))) =
      some ((output.data.drop firstBrace).take (lastBrace + 1 - firstBrace))
    rw [if_neg (by omega : ¬ firstBrace > lastBrace)]
  · intro hbad
    have hnone := extractJson_none_of_bad hbad
    unfold onClose
    by_cases hb : (trimWS output.data).isEmpty = true
    · refine ⟨by rw [if_pos hb]; rfl, ?_⟩
      intro hfalse
      simp [hb] at hfalse
    · rw [if_neg hb, hnone]
      exact ⟨rfl, fun _ => rfl⟩

/-- C2 witness: noisy output with no braces. -/
theorem c2_payload_extraction_failure_witness :
    (onClose (fun _ => Except.error "e") (fun _ => none) [] "noise").filter
      isStatusUpdate = [] ∧
    onClose (fun _ => Except.error "e") (fun _ => none) [] "noise" =
      [Update.diag "Could not find valid JSON in output\n"] := by
  have h := (c2_payload_extraction_failure (fun _ => Except.error "e")
    (fun _ => none) [] "noise").2 (by decide)
  exact ⟨h.1, h.2 (by decide)⟩

/-- C7: a matched entry whose assertions are present reports the heading
passed exactly when the runner says passed; otherwise failed with the
summary counting assertions with passed false out of assertionCount. -/
theorem c7_heading_pass_fail (fs : String → Option String)
    (testTargets : List Target) (tr : TestResultEntry) (target : Target)
    (as : List AssertionResult)
    (h1 : findTarget testTargets tr = some target)
    (h2 : tr.assertions = some as) :
    V2.processEntry fs testTargets tr =
      (V2.entryAssertUpdates fs target tr ++
        [Update.replaceChildren target.itemId (V2.childIds target as.length),
          if tr.passed then
            Update.passed target.itemId (some (tr.duration.getD 0))
          else
            Update.failed target.itemId
              (toString ((as.filter (fun a => !a.passed)).length) ++ " of "
                ++ toString tr.assertionCount ++ " assertions failed")
              (some (tr.duration.getD 0))], false) := by
  have hcount : V2.entryChildCount tr = as.length := by
    unfold V2.entryChildCount
    rw [h2]
    show (if as.length > 0 then as.length else 0) = as.length
    by_cases hlen : as.length > 0
    · rw [if_pos hlen]
    · rw [if_neg hlen]
      omega
  unfold V2.processEntry
  rw [h1]
  show (let assertUpds := V2.entryAssertUpdates fs target tr
    let replaced := Update.replaceChildren target.itemId
      (V2.childIds target (V2.entryChildCount tr))
    if tr.passed then
      (assertUpds ++ [replaced,
        Update.passed target.itemId (some (tr.duration.getD 0))], false)
    else
      match tr.assertions with
      | none => (assertUpds ++ [replaced], true)
      | some as =>
        let failedCount := (as.filter (fun a => !a.passed)).length
        (assertUpds ++ [replaced,
          Update.failed target.itemId
            (toString failedCount ++ " of " ++ toString tr.assertionCount
              ++ " assertions failed")
            (some (tr.duration.getD 0))], false)) = _
  rw [hcount]
  cases hp : tr.passed with
  | true => rfl
  | false =>
    rw [h2]
    rfl

/-- C7 witness: one failing and one passing assertion, entry failed. -/
theorem c7_heading_pass_fail_witness :
    V2.processEntry (fun _ => none)
      [Target.mk "SuiteTest" "test_x" "id1" none]
      (TestResultEntry.mk "SuiteTest" "test_x" false (some 5) 2
        (some [AssertionResult.mk (some "m1") "1" "2" false none none none,
          AssertionResult.mk none "3" "3" true none none none])) =
      (V2.entryAssertUpdates (fun _ => none)
        (Target.mk "SuiteTest" "test_x" "id1" none)
        (TestResultEntry.mk "SuiteTest" "test_x" false (some 5) 2
          (some [AssertionResult.mk (some "m1") "1" "2" false none none none,
            AssertionResult.mk none "3" "3" true none none none])) ++
        [Update.replaceChildren "id1"
          (V2.childIds (Target.mk "SuiteTest" "test_x" "id1" none) 2),
          Update.failed "id1" "1 of 2 assertions failed" (some 5)], false) := by
  have h := c7_heading_pass_fail (fun _ => none)
    [Target.mk "SuiteTest" "test_x" "id1" none]
    (TestResultEntry.mk "SuiteTest" "test_x" false (some 5) 2
      (some [AssertionResult.mk (some "m1") "1" "2" false none none none,
        AssertionResult.mk none "3" "3" true none none none]))
    (Target.mk "SuiteTest" "test_x" "id1" none)
    [AssertionResult.mk (some "m1") "1" "2" false none none none,
      AssertionResult.mk none "3" "3" true none none none]
    (by decide) rfl
  exact h.trans (by decide)

/-- C8: when the payload holds a failures entry matching a failed
heading and carrying a truthy reason, that reason is prepended as the
first line of the heading failure message, before the detail block and
the trailing assertion summary (first-revision reconciler, the revision
that consults the failures array). -/
theorem c8_failure_reason_prepended (testTargets : List Target)
    (tr : TestResultEntry) (target : Target) (as : List AssertionResult)
    (fl : List FailureEntry) (f : FailureEntry) (r : String)
    (h1 : findTarget testTargets tr = some target)
    (h2 : tr.passed = false)
    (h3 : tr.assertions = some as)
    (h4 : fl.find? (fun x => x.suite == tr.suite && x.test == tr.name)
      = some f)
    (h5 : f.reason = some r)
    (h6 : r.isEmpty = false) :
    V1.processEntry (some fl) testTargets tr =
      ([Update.failed target.itemId
        (joinWith "\n" (("Failed: " ++ r ++ "\n") ::
          (V1.detailLines (as.filter (fun a => !a.passed)) ++
            [V1.summaryLine tr as])))
        (some (tr.duration.getD 0))], false) ∧
    joinWith "\n" (("Failed: " ++ r ++ "\n") ::
        (V1.detailLines (as.filter (fun a => !a.passed)) ++
          [V1.summaryLine tr as])) =
      ("Failed: " ++ r ++ "\n") ++ "\n" ++
        joinWith "\n" (V1.detailLines (as.filter (fun a => !a.passed)) ++
          [V1.summaryLine tr as]) ∧
    (V1.detailLines (as.filter (fun a => !a.passed)) ++
        [V1.summaryLine tr as]).getLast? = some (V1.summaryLine tr as) := by
  refine ⟨?_, ?_, ?_⟩
  · have hrl : V1.reasonLines (some fl) tr = ["Failed: " ++ r ++ "\n"] := by
      unfold V1.reasonLines
      show (match fl.find? (fun f => f.suite == tr.suite && f.test == tr.name) with
        | some f =>
          match f.reason with
          | some r => if r.isEmpty then [] else ["Failed: " ++ r ++ "\n"]
          | none => []
        | none => ([] : List String)) = ["Failed: " ++ r ++ "\n"]
      rw [h4]
      show (match f.reason with
        | some r => if r.isEmpty then [] else ["Failed: " ++ r ++ "\n"]
        | none => ([] : List String)) = ["Failed: " ++ r ++ "\n"]
      rw [h5]
      show (if r.isEmpty then [] else ["Failed: " ++ r ++ "\n"])
        = ["Failed: " ++ r ++ "\n"]
      rw [if_neg (by simp [h6])]
    unfold V1.processEntry
    rw [h1]
    show (if tr.passed then
        ([Update.passed target.itemId (some (tr.duration.getD 0))], false)
      else
        let rl := V1.reasonLines (some fl) tr
        match tr.assertions with
        | none => (([] : List Update), true)
        | some as =>
          let failedAs := as.filter (fun a => !a.passed)
          ([Update.failed target.itemId
            (joinWith "\n" (rl ++ V1.detailLines failedAs
              ++ [V1.summaryLine tr as]))
            (some (tr.duration.getD 0))], false)) = _
    rw [if_neg (by simp [h2]), hrl, h3]
    rfl
  · exact joinWith_cons "\n" _ _ (by simp)
  · simp

/-- C8 witness: a concrete failures entry with reason boom. -/
theorem c8_failure_reason_prepended_witness :
    V1.processEntry (some [FailureEntry.mk "S" "test_x" (some "boom")])
      [Target.mk "S" "test_x" "id2" none]
      (TestResultEntry.mk "S" "test_x" false none 1
        (some [AssertionResult.mk (some "m") "1" "2" false none none none])) =
      ([Update.failed "id2"
        (joinWith "\n" (("Failed: " ++ "boom" ++ "\n") ::
          (V1.detailLines
            ([AssertionResult.mk (some "m") "1" "2" false none none none].filter
              (fun a => !a.passed)) ++
            [V1.summaryLine
              (TestResultEntry.mk "S" "test_x" false none 1
                (some [AssertionResult.mk (some "m") "1" "2" false none none none]))
              [AssertionResult.mk (some "m") "1" "2" false none none none]])))
        (some 0)], false) :=
  (c8_failure_reason_prepended
    [Target.mk "S" "test_x" "id2" none]
    (TestResultEntry.mk "S" "test_x" false none 1
      (some [AssertionResult.mk (some "m") "1" "2" false none none none]))
    (Target.mk "S" "test_x" "id2" none)
    [AssertionResult.mk (some "m") "1" "2" false none none none]
    [FailureEntry.mk "S" "test_x" (some "boom")]
    (FailureEntry.mk "S" "test_x" (some "boom")) "boom"
    (by decide) rfl rfl (by decide) rfl rfl).1

/-- C6 counterexample: two same-message assertions on different physical
lines of one function.  The scanner and builder create two records (on
lines 3 and 4), but the assertion item id is the file uri joined with
the should message only, and the id-keyed children replacement keeps a
single entry per id: the installed heading holds exactly one assertion
child — message-text equality has collapsed the two entities into one,
against the claim. -/
theorem c6_same_function_collapse_counterexample :
    ((assertionRecords "T.4dm" "uri"
      "x\n// #tags: u\nFunction test_A($t)\n$t.assert.areEqual($t; 1; $a; \"dup\")\n$t.assert.areEqual($t; 2; $b; \"dup\")").map
        (fun r => (r.should, r.range.start.line)) =
      [("dup", 3), ("dup", 4)]) ∧
    ((installedChildren "T.4dm" "uri"
      "x\n// #tags: u\nFunction test_A($t)\n$t.assert.areEqual($t; 1; $a; \"dup\")\n$t.assert.areEqual($t; 2; $b; \"dup\")").find?
        (fun p => p.1 == "test_A")).map (fun p => p.2.length) = some 1 := by
  decide

/-- C6 (amended): every textual assertion creates its own entity record
with a distinct source range — the created records carry strictly
increasing source lines, so message equality never merges records at
creation — but the installed tree is id-keyed: each finalized entity
keeps at most one child per item id, and an assertion child is keyed by
the file uri joined with its shouldMessage alone, so equal-message
assertions under the same heading collapse into a single installed
child, while assertions under different headings live in different
children collections. -/
theorem c6_assertion_entities_amended (fileLabel uri text : String) :
    ((assertionRecords fileLabel uri text).map
      (fun r => r.range.start.line)).Pairwise (· < ·) ∧
    (assertionRecords fileLabel uri text).Pairwise
      (fun r1 r2 => r1.range ≠ r2.range) ∧
    (∀ p ∈ installedChildren fileLabel uri text,
      ((p.2).map childId).Nodup) ∧
    (∀ p ∈ installedChildren fileLabel uri text,
      ∀ id testCase, ChildItem.caseItem id testCase ∈ p.2 →
        id = uri ++ "/" ++ testCase.should) := by
  have h1 : ((assertionRecords fileLabel uri text).map
      (fun r => r.range.start.line)).Pairwise (· < ·) :=
    List.Pairwise.sublist
      (collectRecs_lines_sublist uri (parseMarkdownV2 text).1 [fileLabel])
      (parseLinesV2_lines_pairwise (splitOnSep '\n' text.data) [] 0)
  have hsound := buildFold_sound uri (parseMarkdownV2 text).1
    [Frame.mk fileLabel []]
    (by
      intro f hf
      rcases List.mem_cons.1 hf with rfl | hf
      · intro c hc
        cases hc
      · cases hf)
  refine ⟨h1, ?_, ?_, ?_⟩
  · have h2 := List.pairwise_map.1 h1
    exact h2.imp (fun hlt heq => by
      rw [heq] at hlt
      exact Nat.lt_irrefl _ hlt)
  · intro p hp
    rcases hsound p hp with ⟨items, hpi, _⟩
    rw [hpi]
    exact replaceById_ids_nodup items
  · intro p hp id testCase hc
    rcases hsound p hp with ⟨items, hpi, hgood⟩
    rw [hpi] at hc
    exact hgood _ (mem_of_mem_replaceById hc)

/-- C6 witness: the same message in two different functions — each
installed heading keeps its own single assertion child (so the
cross-function entities are not collapsed), and the children ids of the
first heading are nodup by the amended theorem. -/
theorem c6_assertion_entities_amended_witness :
    ((installedChildren "T.4dm" "uri"
      "x\n// #tags: u\nFunction test_A($t)\n$t.assert.areEqual($t; 1; $a; \"dup\")\n// #tags: u\nFunction test_B($t)\n$t.assert.areEqual($t; 2; $b; \"dup\")").map
        (fun p => (p.1, p.2.length)) =
      [("test_A", 1), ("test_B", 1), ("T.4dm", 2)]) ∧
    ((("test_A",
        [ChildItem.caseItem "uri/dup"
          (TestCaseRec.mk "uri/dup" "dup" ⟨⟨3, 0⟩, ⟨3, 36⟩⟩ " 1" "areEqual"
            " $a" "dup")]) :
        String × List ChildItem).2.map childId).Nodup :=
  ⟨by decide,
    (c6_assertion_entities_amended "T.4dm" "uri"
      "x\n// #tags: u\nFunction test_A($t)\n$t.assert.areEqual($t; 1; $a; \"dup\")\n// #tags: u\nFunction test_B($t)\n$t.assert.areEqual($t; 2; $b; \"dup\")").2.2.1
      ("test_A",
        [ChildItem.caseItem "uri/dup"
          (TestCaseRec.mk "uri/dup" "dup" ⟨⟨3, 0⟩, ⟨3, 36⟩⟩ " 1" "areEqual"
            " $a" "dup")])
      (by decide)⟩

/-- C3 witness: a matching profile label yields exactly the tag filter. -/
theorem c3_invocation_args_witness :
    (buildCmdArgs
      (some (String.mk (("Run ").data ++ [squote] ++ ("fast").data
        ++ [squote] ++ (" tests").data))) true []).filter isTagArg
      = ["tag=" ++ "fast"] ∧
    (buildCmdArgs
      (some (String.mk (("Run ").data ++ [squote] ++ ("fast").data
        ++ [squote] ++ (" tests").data))) true []).filter isTestListArg
      = [] :=
  (c3_invocation_args
    (some (String.mk (("Run ").data ++ [squote] ++ ("fast").data
      ++ [squote] ++ (" tests").data))) true []).2.2.1 "fast" (by decide)

end FourD
